import Mathlib

/-!
Verification development for the `spdx-to-dep5` repository, covering the
copyright-statement algebra (`copyright_statements` crate: `years.rs`,
`copyright.rs`, `copyright_parsing.rs`, `raw_year/*`), the interning table
(`atom_table.rs`) and the metadata tree (`tree.rs`).

Conventions of the shallow embedding:
* Rust `u16` year values are modelled as `Nat`; where the source performs
  `u16` arithmetic that can wrap (`end + 1`, `begin - 1` in
  `YearRange::can_add`), the model applies the release-mode two's-complement
  wrap explicitly via `% 65536`.
* Rust `assert!` panics and `panic!` are modelled as `Option`/`PRes.panic`
  failure values.
* Strings are modelled as `List Char`; trimming uses the ASCII whitespace
  set recognised by the grammar (space, tab, CR, LF).
-/

namespace SpdxToDep5

/-- The `u16` modulus: `YearRange::can_add` arithmetic wraps at this bound
in release builds. -/
def u16Mod : Nat := 65536

/-- `years.rs`: `YearRange { begin, end }`.  The constructor `YearRange::new`
asserts `begin <= end`; the invariant is carried as hypotheses in theorems. -/
structure YearRange where
  begin : Nat
  yrEnd : Nat
  deriving Repr, DecidableEq

/-- A well-formed range, as enforced by `YearRange::new`'s assertion. -/
def YearRange.WF (r : YearRange) : Prop := r.begin ≤ r.yrEnd

instance : DecidablePred YearRange.WF := fun r =>
  inferInstanceAs (Decidable (r.begin ≤ r.yrEnd))

/-- `years.rs`: `YearRange::is_single_year`. -/
def YearRange.isSingleYear (r : YearRange) : Bool := r.begin == r.yrEnd

/-- `years.rs`: `YearRange::can_add`: the new year is within the range, or
appends one year at the end (`end + 1`), or prepends one year at the
beginning (`begin - 1`); the `u16` additions wrap. -/
def YearRange.canAdd (r : YearRange) (y : Nat) : Bool :=
  (y ≤ r.yrEnd && r.begin ≤ y)
    || (y == (r.yrEnd + 1) % u16Mod)
    || (y == (r.begin + (u16Mod - 1)) % u16Mod)

/-- `years.rs`: `YearRange::can_merge`. -/
def YearRange.canMerge (r other : YearRange) : Bool :=
  r.canAdd other.begin || r.canAdd other.yrEnd

/-- `years.rs`: `YearRange::merge_with` (`Self::new(min begin, max end)`). -/
def YearRange.mergeWith (r other : YearRange) : YearRange :=
  ⟨min r.begin other.begin, max r.yrEnd other.yrEnd⟩

/-- `years.rs`: `YearSpec`. -/
inductive YearSpec where
  | singleYear (y : Nat)
  | closedRange (r : YearRange)
  deriving Repr, DecidableEq

/-- `From<YearSpec> for YearRange`. -/
def YearSpec.toYearRange : YearSpec → YearRange
  | .singleYear y => ⟨y, y⟩
  | .closedRange r => r

/-- `years.rs`: `Year::contains_year` (plain equality). -/
def yearContainsYear (self other : Nat) : Bool := self == other

/-- `years.rs`: `Year::contains_range`. -/
def yearContainsRange (self : Nat) (other : YearRange) : Bool :=
  (self == other.begin) && (self == other.yrEnd)

/-- `years.rs`: `YearRange::contains_year`. -/
def YearRange.containsYear (r : YearRange) (other : Nat) : Bool :=
  (other ≤ r.yrEnd) && (r.begin ≤ other)

/-- `years.rs`: `YearRange::contains_range`. -/
def YearRange.containsRange (r other : YearRange) : Bool :=
  r.containsYear other.begin && r.containsYear other.yrEnd

/-- `years.rs`: `YearSpec::contains_year` (`impl YearContainment for YearSpec`). -/
def YearSpec.containsYear : YearSpec → Nat → Bool
  | .singleYear y, other => yearContainsYear y other
  | .closedRange r, other => r.containsYear other

/-- `years.rs`: `YearSpec::contains_range`. -/
def YearSpec.containsRange : YearSpec → YearRange → Bool
  | .singleYear y, other => yearContainsRange y other
  | .closedRange r, other => r.containsRange other

/-- `years.rs`: `YearSpec::contains`, dispatching on the shape of `other`. -/
def YearSpec.contains (s other : YearSpec) : Bool :=
  match other with
  | .singleYear y => s.containsYear y
  | .closedRange r => s.containsRange r

/-- The accumulator loop of itertools `coalesce`: hold the current item `a`;
on the next item `b`, either merge it into `a` or emit `a` and continue
with `b`. -/
def coalesceGo (a : YearRange) : List YearRange → List YearRange
  | [] => [a]
  | b :: rest =>
      if a.canMerge b then coalesceGo (a.mergeWith b) rest
      else a :: coalesceGo b rest

/-- `years.rs`: `coalesce_years`: the itertools `coalesce` adjacent-pair
reduction, merging whenever `can_merge` holds. -/
def coalesceYears : List YearRange → List YearRange
  | [] => []
  | a :: rest => coalesceGo a rest

/-- `years.rs`: the sort key of `TotalOrderedYearRange`: ascending `begin`,
then ascending negated `end` (i.e. descending `end`). -/
def trLe (a b : YearRange) : Prop :=
  a.begin < b.begin ∨ (a.begin = b.begin ∧ b.yrEnd ≤ a.yrEnd)

instance : DecidableRel trLe := fun a b =>
  inferInstanceAs (Decidable (a.begin < b.begin ∨ (a.begin = b.begin ∧ b.yrEnd ≤ a.yrEnd)))

instance : IsTotal YearRange trLe :=
  ⟨by intro a b; unfold trLe; omega⟩

instance : IsTrans YearRange trLe :=
  ⟨by intro a b c; unfold trLe; omega⟩

/-- `years.rs`: `YearRangeCollection::into_coalesced_vec`: drain the heap in
`TotalOrderedYearRange` order and run `coalesce_years`.  The collection
itself is modelled as the multiset (list) of accumulated ranges; the heap's
`into_sorted_vec` is the unique sort by the total key order. -/
def intoCoalescedVec (l : List YearRange) : List YearRange :=
  coalesceYears (List.insertionSort trLe l)

/-! Spec-side notions for the coalescer: membership of a year in a range /
in a union of ranges, the "ordered by ascending begin" relation, and the
separation relation (disjoint and not even adjacent) that characterises a
canonical minimal list of ranges. -/

/-- A year lies in a range (interval semantics). -/
def inR (y : Nat) (r : YearRange) : Prop := r.begin ≤ y ∧ y ≤ r.yrEnd

instance (y r) : Decidable (inR y r) :=
  inferInstanceAs (Decidable (r.begin ≤ y ∧ y ≤ r.yrEnd))

/-- A year lies in the union of a list of ranges. -/
def inL (y : Nat) (l : List YearRange) : Prop := ∃ r ∈ l, inR y r

instance (y l) : Decidable (inL y l) :=
  inferInstanceAs (Decidable (∃ r ∈ l, inR y r))

/-- Years strictly inside the `u16` domain, so that `can_add`'s wrapping
arithmetic coincides with plain arithmetic. -/
def YearRange.Bounded (r : YearRange) : Prop := 1 ≤ r.begin ∧ r.yrEnd ≤ 65534

instance : DecidablePred YearRange.Bounded := fun r =>
  inferInstanceAs (Decidable (1 ≤ r.begin ∧ r.yrEnd ≤ 65534))

/-- Ascending `begin` order. -/
def beginLE (a b : YearRange) : Prop := a.begin ≤ b.begin

instance : DecidableRel beginLE := fun a b =>
  inferInstanceAs (Decidable (a.begin ≤ b.begin))

instance : IsTrans YearRange beginLE := ⟨by intro a b c; unfold beginLE; omega⟩

/-- Separation: `b` starts at least two years after `a` ends, so the two
ranges are disjoint and cannot be merged. -/
def sepR (a b : YearRange) : Prop := a.yrEnd + 1 < b.begin

instance : DecidableRel sepR := fun a b =>
  inferInstanceAs (Decidable (a.yrEnd + 1 < b.begin))

theorem canAdd_iff (r : YearRange) (y : Nat) (hwf : r.WF) (hb : r.Bounded) :
    r.canAdd y = true ↔ (r.begin ≤ y + 1 ∧ y ≤ r.yrEnd + 1) := by
  obtain ⟨hb1, hb2⟩ := hb
  unfold YearRange.canAdd u16Mod
  unfold YearRange.WF at hwf
  simp only [Bool.or_eq_true, Bool.and_eq_true, decide_eq_true_eq, beq_iff_eq]
  omega

theorem canMerge_iff (a b : YearRange) (hwfa : a.WF) (hwfb : b.WF)
    (hba : a.Bounded) :
    a.canMerge b = true ↔
      ((a.begin ≤ b.begin + 1 ∧ b.begin ≤ a.yrEnd + 1) ∨
        (a.begin ≤ b.yrEnd + 1 ∧ b.yrEnd ≤ a.yrEnd + 1)) := by
  unfold YearRange.canMerge
  rw [Bool.or_eq_true, canAdd_iff a b.begin hwfa hba, canAdd_iff a b.yrEnd hwfa hba]

theorem mergeWith_wf (a b : YearRange) (hwfa : a.WF) :
    (a.mergeWith b).WF := by
  unfold YearRange.WF at hwfa
  unfold YearRange.WF YearRange.mergeWith
  simp only
  omega

theorem mergeWith_bounded (a b : YearRange) (hba : a.Bounded) (hbb : b.Bounded) :
    (a.mergeWith b).Bounded := by
  obtain ⟨h1, h2⟩ := hba; obtain ⟨h3, h4⟩ := hbb
  unfold YearRange.Bounded YearRange.mergeWith
  simp only
  omega

/-- Merging a mergeable pair of well-formed ranges is exact: the merged
range covers precisely the union of the two. -/
theorem mergeWith_mem (a b : YearRange) (hwfa : a.WF) (hwfb : b.WF)
    (hba : a.Bounded) (hm : a.canMerge b = true) (y : Nat) :
    inR y (a.mergeWith b) ↔ inR y a ∨ inR y b := by
  rw [canMerge_iff a b hwfa hwfb hba] at hm
  unfold YearRange.WF at hwfa hwfb
  unfold inR YearRange.mergeWith
  simp only
  omega

/-- Main invariant of the accumulator loop: starting from a well-formed,
bounded accumulator and a begin-sorted, well-formed, bounded tail, the loop
emits a list that (i) is well-formed and bounded, (ii) is separated
(sorted, disjoint, non-adjacent), (iii) covers exactly the union of the
accumulator and the tail, and (iv) starts at the accumulator's `begin`. -/
theorem coalesceGo_spec (l : List YearRange) :
    ∀ a : YearRange, a.WF → a.Bounded →
    (∀ r ∈ l, r.WF) → (∀ r ∈ l, r.Bounded) →
    List.Pairwise beginLE (a :: l) →
    (∀ r ∈ coalesceGo a l, r.WF ∧ r.Bounded) ∧
    List.Chain' sepR (coalesceGo a l) ∧
    (∀ y, inL y (coalesceGo a l) ↔ (inR y a ∨ inL y l)) ∧
    (∃ hd tl, coalesceGo a l = hd :: tl ∧ hd.begin = a.begin) := by
  induction l with
  | nil =>
      intro a hwf hb _ _ _
      refine ⟨?_, ?_, ?_, a, [], rfl, rfl⟩
      · intro r hr; simp only [coalesceGo, List.mem_singleton] at hr
        exact hr ▸ ⟨hwf, hb⟩
      · simp [coalesceGo]
      · intro y; simp [coalesceGo, inL]
  | cons b rest ih =>
      intro a hwf hb hwfl hbl hsort
      have hwfb : b.WF := hwfl b (by simp)
      have hbb : b.Bounded := hbl b (by simp)
      have hab : a.begin ≤ b.begin := (List.pairwise_cons.mp hsort).1 b (by simp)
      by_cases hm : a.canMerge b = true
      · -- merge branch
        have hout : coalesceGo a (b :: rest) = coalesceGo (a.mergeWith b) rest := by
          simp [coalesceGo, hm]
        have hmwf : (a.mergeWith b).WF := mergeWith_wf a b hwf
        have hmb : (a.mergeWith b).Bounded := mergeWith_bounded a b hb hbb
        have hsort' : List.Pairwise beginLE (a.mergeWith b :: rest) := by
          rw [List.pairwise_cons]
          refine ⟨?_, (List.pairwise_cons.mp (List.pairwise_cons.mp hsort).2).2⟩
          intro r hr
          have h1 : beginLE a r := (List.pairwise_cons.mp hsort).1 r (by simp [hr])
          unfold beginLE at h1 ⊢
          unfold YearRange.mergeWith
          simp only
          omega
        obtain ⟨g1, g2, g3, hd, tl, heq, hhd⟩ :=
          ih (a.mergeWith b) hmwf hmb
            (fun r hr => hwfl r (by simp [hr]))
            (fun r hr => hbl r (by simp [hr])) hsort'
        refine ⟨hout ▸ g1, hout ▸ g2, ?_, hd, tl, hout ▸ heq, ?_⟩
        · intro y
          rw [hout, g3 y, mergeWith_mem a b hwf hwfb hb hm y]
          unfold inL
          simp only [List.mem_cons]
          constructor
          · rintro ((h | h) | ⟨r, hr, hir⟩)
            · exact Or.inl h
            · exact Or.inr ⟨b, Or.inl rfl, h⟩
            · exact Or.inr ⟨r, Or.inr hr, hir⟩
          · rintro (h | ⟨r, (rfl | hr), hir⟩)
            · exact Or.inl (Or.inl h)
            · exact Or.inl (Or.inr hir)
            · exact Or.inr ⟨r, hr, hir⟩
        · rw [hhd]
          unfold YearRange.mergeWith
          simp only
          omega
      · -- emit branch
        have hout : coalesceGo a (b :: rest) = a :: coalesceGo b rest := by
          simp [coalesceGo, hm]
        have hsep : sepR a b := by
          rw [canMerge_iff a b hwf hwfb hb] at hm
          unfold YearRange.WF at hwf hwfb
          unfold sepR
          omega
        obtain ⟨g1, g2, g3, hd, tl, heq, hhd⟩ :=
          ih b hwfb hbb
            (fun r hr => hwfl r (by simp [hr]))
            (fun r hr => hbl r (by simp [hr]))
            (List.pairwise_cons.mp hsort).2
        refine ⟨?_, ?_, ?_, a, coalesceGo b rest, hout, rfl⟩
        · intro r hr
          rw [hout] at hr
          rcases List.mem_cons.mp hr with rfl | hr
          · exact ⟨hwf, hb⟩
          · exact g1 r hr
        · rw [hout, heq]
          refine List.Chain'.cons ?_ (heq ▸ g2)
          unfold sepR at hsep ⊢
          omega
        · intro y
          rw [hout]
          unfold inL
          simp only [List.mem_cons]
          constructor
          · rintro ⟨r, (rfl | hr), hir⟩
            · exact Or.inl hir
            · rcases (g3 y).mp ⟨r, hr, hir⟩ with h | ⟨r', hr', hir'⟩
              · exact Or.inr ⟨b, Or.inl rfl, h⟩
              · exact Or.inr ⟨r', Or.inr hr', hir'⟩
          · rintro (h | ⟨r, (rfl | hr), hir⟩)
            · exact ⟨a, Or.inl rfl, h⟩
            · obtain ⟨r', hr', hir'⟩ := (g3 y).mpr (Or.inl hir)
              exact ⟨r', Or.inr hr', hir'⟩
            · obtain ⟨r', hr', hir'⟩ := (g3 y).mpr (Or.inr ⟨r, hr, hir⟩)
              exact ⟨r', Or.inr hr', hir'⟩

/-- `coalesce_years` on a begin-sorted, well-formed, bounded list produces a
separated list covering exactly the union of the input. -/
theorem coalesceYears_spec (l : List YearRange)
    (hwfl : ∀ r ∈ l, r.WF) (hbl : ∀ r ∈ l, r.Bounded)
    (hsort : List.Pairwise beginLE l) :
    (∀ r ∈ coalesceYears l, r.WF ∧ r.Bounded) ∧
    List.Chain' sepR (coalesceYears l) ∧
    (∀ y, inL y (coalesceYears l) ↔ inL y l) := by
  cases l with
  | nil => refine ⟨by simp [coalesceYears], by simp [coalesceYears], ?_⟩
           intro y; simp [coalesceYears]
  | cons a rest =>
      obtain ⟨g1, g2, g3, _⟩ :=
        coalesceGo_spec rest a (hwfl a (by simp)) (hbl a (by simp))
          (fun r hr => hwfl r (by simp [hr]))
          (fun r hr => hbl r (by simp [hr])) hsort
      refine ⟨g1, g2, ?_⟩
      intro y
      rw [show coalesceYears (a :: rest) = coalesceGo a rest from rfl, g3 y]
      unfold inL
      simp only [List.mem_cons]
      constructor
      · rintro (h | ⟨r, hr, hir⟩)
        · exact ⟨a, Or.inl rfl, h⟩
        · exact ⟨r, Or.inr hr, hir⟩
      · rintro ⟨r, (rfl | hr), hir⟩
        · exact Or.inl hir
        · exact Or.inr ⟨r, hr, hir⟩

/-- A separated chain of well-formed ranges is pairwise separated. -/
theorem chain'_sepR_pairwise (l : List YearRange)
    (hwf : ∀ r ∈ l, r.WF) (h : List.Chain' sepR l) : List.Pairwise sepR l := by
  induction l with
  | nil => exact List.Pairwise.nil
  | cons a t ih =>
      cases t with
      | nil => simp
      | cons b t' =>
          obtain ⟨hab, ht⟩ := List.chain'_cons.mp h
          have hpt : List.Pairwise sepR (b :: t') :=
            ih (fun r hr => hwf r (by simp [hr])) ht
          refine List.pairwise_cons.mpr ⟨?_, hpt⟩
          intro x hx
          rcases List.mem_cons.mp hx with rfl | hx'
          · exact hab
          · have hbx : sepR b x := (List.pairwise_cons.mp hpt).1 x hx'
            have hwfb : b.WF := hwf b (by simp)
            unfold sepR at hab hbx ⊢
            unfold YearRange.WF at hwfb
            omega

/-- Minimality: any list of ranges covering the same set of years as a
pairwise-separated well-formed list has at least as many elements. -/
theorem sep_list_minimal (out ws : List YearRange)
    (hwf : ∀ r ∈ out, r.WF) (hpw : List.Pairwise sepR out)
    (hcover : ∀ y, inL y ws ↔ inL y out) :
    out.length ≤ ws.length := by
  classical
  have hget : ∀ (i j : Fin out.length), i < j → sepR (out.get i) (out.get j) :=
    fun i j hij => List.pairwise_iff_get.mp hpw i j hij
  have hex : ∀ i : Fin out.length, ∃ j : Fin ws.length,
      inR (out.get i).begin (ws.get j) := by
    intro i
    have hiwf : (out.get i).WF := hwf _ (List.get_mem out i.val i.isLt)
    have hmem : inL (out.get i).begin out :=
      ⟨out.get i, List.get_mem out i.val i.isLt, le_refl _, hiwf⟩
    obtain ⟨r, hr, hir⟩ := (hcover _).mpr hmem
    obtain ⟨j, hj⟩ := List.mem_iff_get.mp hr
    exact ⟨j, hj ▸ hir⟩
  choose f hf using hex
  have haux : ∀ i k : Fin out.length, i < k → f i = f k → False := by
    intro i k hik heq
    have hfi := hf i
    have hfk := hf k
    rw [← heq] at hfk
    have hiwf : (out.get i).WF := hwf _ (List.get_mem out i.val i.isLt)
    have hsik : sepR (out.get i) (out.get k) := hget i k hik
    -- the gap year just after `out.get i` is covered by `ws` ...
    have hg_ws : inL ((out.get i).yrEnd + 1) ws := by
      refine ⟨ws.get (f i), List.get_mem ws (f i).val (f i).isLt, ?_, ?_⟩
      · unfold inR at hfi
        unfold YearRange.WF at hiwf
        omega
      · unfold inR at hfk
        unfold sepR at hsik
        omega
    -- ... but lies in none of the separated ranges of `out`.
    obtain ⟨r, hr, hgr⟩ := (hcover _).mp hg_ws
    obtain ⟨l', hl'⟩ := List.mem_iff_get.mp hr
    rw [← hl'] at hgr
    rcases lt_trichotomy l' i with hlt | hleq | hgt
    · have hsli : sepR (out.get l') (out.get i) := hget l' i hlt
      unfold inR at hgr
      unfold sepR at hsli
      unfold YearRange.WF at hiwf
      omega
    · rw [hleq] at hgr
      unfold inR at hgr
      omega
    · have hsil : sepR (out.get i) (out.get l') := hget i l' hgt
      unfold inR at hgr
      unfold sepR at hsil
      omega
  have hinj : Function.Injective f := by
    intro i k heq
    rcases lt_trichotomy i k with h | h | h
    · exact absurd heq (fun hc => haux i k h hc)
    · exact h
    · exact absurd heq.symm (fun hc => haux k i h hc)
  have := Fintype.card_le_of_injective f hinj
  simpa using this

/-- The drained heap order: `insertionSort` by the total key order is
sorted, is a permutation of the input, and is in particular begin-sorted. -/
theorem insertionSort_trLe_facts (l : List YearRange) :
    List.Sorted trLe (List.insertionSort trLe l) ∧
    List.Perm (List.insertionSort trLe l) l ∧
    List.Pairwise beginLE (List.insertionSort trLe l) := by
  refine ⟨List.sorted_insertionSort trLe l, List.perm_insertionSort trLe l, ?_⟩
  refine List.Pairwise.imp ?_ (List.sorted_insertionSort trLe l)
  intro a b h
  unfold trLe at h
  unfold beginLE
  omega

/-- On a pairwise-separated (already canonical) list, the accumulator loop
never merges, so it is the identity. -/
theorem coalesceGo_of_sep (l : List YearRange) :
    ∀ a : YearRange, a.WF → a.Bounded →
    (∀ r ∈ l, r.WF ∧ r.Bounded) →
    List.Chain' sepR (a :: l) →
    coalesceGo a l = a :: l := by
  induction l with
  | nil => intro a _ _ _ _; rfl
  | cons b rest ih =>
      intro a hwf hb hl hch
      obtain ⟨hab, hch'⟩ := List.chain'_cons.mp hch
      have hwfb : b.WF := (hl b (by simp)).1
      have hnm : a.canMerge b = false := by
        rw [Bool.eq_false_iff]
        intro hc
        rw [canMerge_iff a b hwf hwfb hb] at hc
        unfold sepR at hab
        unfold YearRange.WF at hwfb
        omega
      simp only [coalesceGo, hnm, Bool.false_eq_true, if_false]
      rw [ih b hwfb (hl b (by simp)).2 (fun r hr => hl r (by simp [hr])) hch']

/-- `coalesce_years` is the identity on separated lists. -/
theorem coalesceYears_of_sep (l : List YearRange)
    (hl : ∀ r ∈ l, r.WF ∧ r.Bounded) (hch : List.Chain' sepR l) :
    coalesceYears l = l := by
  cases l with
  | nil => rfl
  | cons a rest =>
      exact coalesceGo_of_sep rest a (hl a (by simp)).1 (hl a (by simp)).2
        (fun r hr => hl r (by simp [hr])) hch

/-! ## Claim C4 -/

/-- **C4, counterexample**: as universally quantified over *every* multiset
of (constructible) year ranges, the claim fails: with the single years
`65535` and `0`, `can_add`'s wrapping `u16` arithmetic (`begin - 1` wraps
to `65535`; a debug build panics instead) merges the two distant ranges, so
the output's union is not the union of the inputs (year `5` appears from
nowhere). -/
theorem c4_union_counterexample :
    ¬ (∀ y, inL y (intoCoalescedVec [⟨65535, 65535⟩, ⟨0, 0⟩]) ↔
        inL y [⟨65535, 65535⟩, ⟨0, 0⟩]) := by
  intro h
  have h5 : inL 5 (intoCoalescedVec [⟨65535, 65535⟩, ⟨0, 0⟩]) := by decide
  exact absurd ((h 5).mp h5) (by decide)

/-- **C4 (amended)**: for every multiset of well-formed year ranges whose
years lie strictly inside the `u16` domain (in particular all real 4-digit
years), `into_coalesced_vec` drains the heap sorted by ascending `begin`
(descending `end` on ties), and the single adjacent-pair reduction yields a
sorted, pairwise-separated (disjoint, non-adjacent) list whose union is the
union of the inputs and which is of minimal length among all lists of
ranges with that union; in particular `[2018,2019]` and `[2020,2022]` merge
into `[2018,2022]`, while `[2018,2019]` and `[2021,2022]` stay disjoint. -/
theorem c4_intoCoalescedVec_canonical (l : List YearRange)
    (hwf : ∀ r ∈ l, r.WF) (hb : ∀ r ∈ l, r.Bounded) :
    (List.Sorted trLe (List.insertionSort trLe l) ∧
      List.Perm (List.insertionSort trLe l) l) ∧
    List.Chain' sepR (intoCoalescedVec l) ∧
    (∀ y, inL y (intoCoalescedVec l) ↔ inL y l) ∧
    (∀ ws : List YearRange, (∀ y, inL y ws ↔ inL y l) →
      (intoCoalescedVec l).length ≤ ws.length) ∧
    intoCoalescedVec [⟨2018, 2019⟩, ⟨2020, 2022⟩] = [⟨2018, 2022⟩] ∧
    intoCoalescedVec [⟨2018, 2019⟩, ⟨2021, 2022⟩] =
      [⟨2018, 2019⟩, ⟨2021, 2022⟩] := by
  obtain ⟨hsorted, hperm, hpair⟩ := insertionSort_trLe_facts l
  have hwf' : ∀ r ∈ List.insertionSort trLe l, r.WF :=
    fun r hr => hwf r (hperm.mem_iff.mp hr)
  have hb' : ∀ r ∈ List.insertionSort trLe l, r.Bounded :=
    fun r hr => hb r (hperm.mem_iff.mp hr)
  obtain ⟨g1, g2, g3⟩ := coalesceYears_spec (List.insertionSort trLe l) hwf' hb' hpair
  have hunion : ∀ y, inL y (intoCoalescedVec l) ↔ inL y l := by
    intro y
    rw [show intoCoalescedVec l = coalesceYears (List.insertionSort trLe l) from rfl,
      g3 y]
    unfold inL
    constructor
    · rintro ⟨r, hr, hir⟩; exact ⟨r, hperm.mem_iff.mp hr, hir⟩
    · rintro ⟨r, hr, hir⟩; exact ⟨r, hperm.mem_iff.mpr hr, hir⟩
  refine ⟨⟨hsorted, hperm⟩, g2, hunion, ?_, by decide, by decide⟩
  intro ws hws
  refine sep_list_minimal (intoCoalescedVec l) ws (fun r hr => (g1 r hr).1)
    (chain'_sepR_pairwise _ (fun r hr => (g1 r hr).1) g2) ?_
  intro y
  rw [hws y, hunion y]

/-- **C4, witness**: the amended theorem applied to the spec's own merge
example. -/
theorem c4_witness :
    (∀ r ∈ [(⟨2018, 2019⟩ : YearRange), ⟨2020, 2022⟩], r.WF) ∧
    (∀ y, inL y (intoCoalescedVec [(⟨2018, 2019⟩ : YearRange), ⟨2020, 2022⟩]) ↔
      inL y [(⟨2018, 2019⟩ : YearRange), ⟨2020, 2022⟩]) :=
  ⟨by decide,
    (c4_intoCoalescedVec_canonical [⟨2018, 2019⟩, ⟨2020, 2022⟩]
      (by decide) (by decide)).2.2.1⟩

/-! ## Claim C5 -/

/-- **C5, counterexample**: `coalesce_years` is *not* idempotent on every
sequence.  On the unsorted sequence `[10,10], [20,25], [11,19]` the first
pass cannot merge `[10,10]` with `[20,25]`, but then merges `[11,19]`
backwards into `[20,25]`, producing `[10,10], [11,25]` — which a second
pass merges further to `[10,25]`. -/
theorem c5_counterexample :
    coalesceYears (coalesceYears [⟨10, 10⟩, ⟨20, 25⟩, ⟨11, 19⟩]) ≠
      coalesceYears [⟨10, 10⟩, ⟨20, 25⟩, ⟨11, 19⟩] := by decide

/-- **C5 (amended)**: the `coalesce_years` reduction is idempotent on every
sequence of well-formed, `u16`-interior ranges that is sorted by ascending
`begin` (as every sequence drained from a `YearRangeCollection` is); for
such input re-coalescing the coalesced output is a no-op. -/
theorem c5_coalesce_idempotent (v : List YearRange)
    (hwf : ∀ r ∈ v, r.WF) (hb : ∀ r ∈ v, r.Bounded)
    (hsort : List.Chain' beginLE v) :
    coalesceYears (coalesceYears v) = coalesceYears v := by
  have hpair : List.Pairwise beginLE v := List.chain'_iff_pairwise.mp hsort
  obtain ⟨g1, g2, _⟩ := coalesceYears_spec v hwf hb hpair
  exact coalesceYears_of_sep (coalesceYears v) g1 g2

/-- **C5, witness**: idempotence at a concrete sorted sequence. -/
theorem c5_witness :
    (∀ r ∈ [(⟨2018, 2020⟩ : YearRange), ⟨2019, 2019⟩, ⟨2023, 2024⟩], r.WF) ∧
    List.Chain' beginLE [(⟨2018, 2020⟩ : YearRange), ⟨2019, 2019⟩, ⟨2023, 2024⟩] ∧
    coalesceYears (coalesceYears
        [(⟨2018, 2020⟩ : YearRange), ⟨2019, 2019⟩, ⟨2023, 2024⟩]) =
      coalesceYears [(⟨2018, 2020⟩ : YearRange), ⟨2019, 2019⟩, ⟨2023, 2024⟩] :=
  ⟨by decide,
    List.Chain'.cons (by decide) (List.Chain'.cons (by decide)
      (List.chain'_singleton _)),
    c5_coalesce_idempotent [⟨2018, 2020⟩, ⟨2019, 2019⟩, ⟨2023, 2024⟩]
      (by decide) (by decide)
      (List.Chain'.cons (by decide) (List.Chain'.cons (by decide)
        (List.chain'_singleton _)))⟩

/-! ## Year model (`raw_year/util.rs`, `raw_year/types.rs`)

`TwoDigitYear` wraps a value `< 100` (asserted by `TwoDigitYear::new`);
`FourDigitYear` wraps a value `> 99` (asserted by `FourDigitYear::new`);
both are modelled as the bare `Nat` with the bound carried as hypotheses. -/

/-- `raw_year/util.rs`: `guess_century`. -/
def guessCentury (twoDigitYear : Nat) : Nat :=
  if twoDigitYear < 60 then 21 else 20

/-- `raw_year/util.rs`: `compose_year` (`CENTURY_DURATION = 100`). -/
def composeYear (century twoDigit : Nat) : Nat :=
  (century - 1) * 100 + twoDigit

/-- `raw_year/util.rs`: `guess_four_digit_from_two_digit`, the body of
`TwoDigitYear::to_four_digit`. -/
def guessFourDigitFromTwoDigit (twoDigit : Nat) : Nat :=
  composeYear (guessCentury twoDigit) twoDigit

/-- `raw_year/util.rs`: `get_century`. -/
def getCentury (year : Nat) : Nat := year / 100 + 1

/-- `raw_year/util.rs`: `get_two_digit_year`. -/
def getTwoDigitYear (year : Nat) : Nat := year % 100

/-- `raw_year/types.rs` / `raw_year/options.rs`: the three independent
normalization flags, always passed explicitly. -/
structure YearRangeNormalization where
  allowCenturyGuess : Bool
  allowAssumingY2kSpan : Bool
  allowMixedSizeImpliedCenturyRollover : Bool
  deriving Repr, DecidableEq

/-- `Default::default()`: all three flags off. -/
def defaultNorm : YearRangeNormalization := ⟨false, false, false⟩

/-- `raw_year/types.rs`: `YearExpr`, a two-digit or four-digit raw year. -/
inductive YearExpr where
  | twoDigit (y : Nat)
  | fourDigit (y : Nat)
  deriving Repr, DecidableEq

/-- `RawYear::to_four_digit`: a two-digit year uses the default century
heuristic; a four-digit year is already done. -/
def YearExpr.toFourDigit : YearExpr → Nat
  | .twoDigit y => guessFourDigitFromTwoDigit y
  | .fourDigit y => y

/-- `RawYear::to_four_digit_with_century_hint`. -/
def YearExpr.toFourDigitWithCenturyHint : YearExpr → Nat → Nat
  | .twoDigit y, century => composeYear century y
  | .fourDigit y, _ => y

/-- `ConfigurableRawYearRange for (TwoDigitYear, TwoDigitYear)`:
`try_to_four_digit_range`. -/
def tryToFourDigitRange22 (opts : YearRangeNormalization) (b e : Nat) :
    Option (Nat × Nat) :=
  if b ≤ e then
    if opts.allowCenturyGuess then
      -- guess the first year's century, re-use it for the second year
      some (guessFourDigitFromTwoDigit b,
        composeYear (getCentury (guessFourDigitFromTwoDigit b)) e)
    else none
  else
    -- range spans y2k?
    if opts.allowAssumingY2kSpan then
      some (composeYear 20 b, composeYear 21 e)
    else none

/-- `ConfigurableRawYearRange for (FourDigitYear, TwoDigitYear)`:
`try_to_four_digit_range`. -/
def tryToFourDigitRange42 (opts : YearRangeNormalization) (b e : Nat) :
    Option (Nat × Nat) :=
  if getTwoDigitYear b ≤ e then
    -- propagate first year's century
    some (b, composeYear (getCentury b) e)
  else
    -- range spans turn of the century?
    if opts.allowMixedSizeImpliedCenturyRollover then
      some (b, composeYear (getCentury b + 1) e)
    else none

/-- `ConfigurableRawYearRange for (TwoDigitYear, FourDigitYear)`:
`try_to_four_digit_range`. -/
def tryToFourDigitRange24 (opts : YearRangeNormalization) (b e : Nat) :
    Option (Nat × Nat) :=
  if b ≤ getTwoDigitYear e then
    -- propagate second year's century
    some (composeYear (getCentury e) b, e)
  else
    -- range spans turn of the century?
    if opts.allowMixedSizeImpliedCenturyRollover then
      some (composeYear (getCentury e - 1) b, e)
    else none

/-- Modelled from the spec: the `copyright_statements` crate's
`raw_year/types.rs` is declared in its `raw_year/mod.rs` but the file is
not among the sources; per spec §4.1, "four/four: already normalized;
succeeds unconditionally if `begin ≤ end`, otherwise the range is improper
and parsing of that line fails" (the crate's own test
`parse_year_spec` requires `"1995-1821"` to fail). -/
def tryToFourDigitRange44 (_opts : YearRangeNormalization) (b e : Nat) :
    Option (Nat × Nat) :=
  if b ≤ e then some (b, e) else none

/-- `ConfigurableRawYearRange for (YearExpr, YearExpr)`: unwrap and
dispatch on the pair's shape. -/
def tryToFourDigitRange (opts : YearRangeNormalization) :
    YearExpr × YearExpr → Option (Nat × Nat)
  | (.twoDigit b, .twoDigit e) => tryToFourDigitRange22 opts b e
  | (.twoDigit b, .fourDigit e) => tryToFourDigitRange24 opts b e
  | (.fourDigit b, .twoDigit e) => tryToFourDigitRange42 opts b e
  | (.fourDigit b, .fourDigit e) => tryToFourDigitRange44 opts b e

/-! ## Claim C6 -/

/-- **C6, counterexample**: the default heuristic sends two-digit `59` to
`2059` (it is below the threshold 60, hence 21st century), not to `1959`
as the claim's boundary example states. -/
theorem c6_counterexample :
    guessFourDigitFromTwoDigit 59 = 2059 ∧
    guessFourDigitFromTwoDigit 59 ≠ 1959 := by decide

/-- **C6 (amended)**: the default two-digit heuristic assigns the 21st
century when the value is `< 60` and the 20th otherwise: `95 ↦ 1995`,
`20 ↦ 2020`, and at the threshold boundary `59 ↦ 2059` while `60 ↦ 1960`. -/
theorem c6_default_heuristic (y : Nat) (h : y < 100) :
    guessCentury y = (if y < 60 then 21 else 20) ∧
    guessFourDigitFromTwoDigit y = (if y < 60 then 2000 + y else 1900 + y) ∧
    guessFourDigitFromTwoDigit 95 = 1995 ∧
    guessFourDigitFromTwoDigit 20 = 2020 ∧
    guessFourDigitFromTwoDigit 59 = 2059 ∧
    guessFourDigitFromTwoDigit 60 = 1960 := by
  refine ⟨rfl, ?_, by decide, by decide, by decide, by decide⟩
  unfold guessFourDigitFromTwoDigit composeYear guessCentury
  by_cases h60 : y < 60 <;> simp [h60]

/-- **C6, witness**: the amended heuristic at two-digit `95`. -/
theorem c6_witness :
    95 < 100 ∧ guessFourDigitFromTwoDigit 95 = (if 95 < 60 then 2000 + 95 else 1900 + 95) :=
  ⟨by decide, (c6_default_heuristic 95 (by decide)).2.1⟩

/-! ## Claim C7 -/

/-- **C7**: `try_to_four_digit_range` case analysis.  Two-digit/two-digit:
with `begin ≤ end` it succeeds iff `allow_century_guess`, giving both years
the century guessed from `begin`; with `begin > end` it succeeds iff
`allow_assuming_y2k_span`, fixing `begin` to the 20th and `end` to the 21st
century.  Four-digit/two-digit: it succeeds unconditionally when `end`'s
tail is ≥ `begin`'s tail, with `end` inheriting `begin`'s century, and
otherwise succeeds iff `allow_mixed_size_implied_century_rollover`, using
`begin`'s century plus one.  In particular `(1995, 20)` fails under the
default configuration and yields `(1995, 2020)` with the rollover flag. -/
theorem c7_try_to_four_digit_range (opts : YearRangeNormalization) :
    (∀ b e : Nat, b < 100 → e < 100 →
      tryToFourDigitRange22 opts b e =
        (if b ≤ e then
          (if opts.allowCenturyGuess = true then
            some (composeYear (guessCentury b) b, composeYear (guessCentury b) e)
          else none)
        else
          (if opts.allowAssumingY2kSpan = true then
            some (1900 + b, 2000 + e)
          else none))) ∧
    (∀ b e : Nat, 99 < b → b ≤ 9999 → e < 100 →
      tryToFourDigitRange42 opts b e =
        (if b % 100 ≤ e then some (b, b / 100 * 100 + e)
        else
          (if opts.allowMixedSizeImpliedCenturyRollover = true then
            some (b, (b / 100 + 1) * 100 + e)
          else none))) ∧
    tryToFourDigitRange42 defaultNorm 1995 20 = none ∧
    tryToFourDigitRange42 ⟨false, false, true⟩ 1995 20 = some (1995, 2020) := by
  refine ⟨?_, ?_, by decide, by decide⟩
  · intro b e hb _
    unfold tryToFourDigitRange22
    by_cases hbe : b ≤ e
    · simp only [if_pos hbe]
      cases hg : opts.allowCenturyGuess
      · simp
      · have hcent : getCentury (guessFourDigitFromTwoDigit b) = guessCentury b := by
          unfold getCentury guessFourDigitFromTwoDigit composeYear guessCentury
          by_cases h60 : b < 60 <;> simp [h60] <;> omega
        simp [hcent]
        rfl
    · simp only [if_neg hbe]
      cases hy : opts.allowAssumingY2kSpan
      · simp
      · simp
        unfold composeYear
        omega
  · intro b e _ _ _
    unfold tryToFourDigitRange42 getTwoDigitYear
    by_cases hte : b % 100 ≤ e
    · simp only [if_pos hte]
      unfold composeYear getCentury
      simp
    · simp only [if_neg hte]
      cases hr : opts.allowMixedSizeImpliedCenturyRollover
      · simp
      · simp
        unfold composeYear getCentury
        omega

/-- **C7, witness**: the four-digit/two-digit case at `(1995, 20)` with the
rollover flag enabled. -/
theorem c7_witness :
    99 < 1995 ∧ 1995 ≤ 9999 ∧ 20 < 100 ∧
    tryToFourDigitRange42 ⟨false, false, true⟩ 1995 20 =
      (if 1995 % 100 ≤ 20 then some (1995, 1995 / 100 * 100 + 20)
      else
        (if (⟨false, false, true⟩ :
            YearRangeNormalization).allowMixedSizeImpliedCenturyRollover = true then
          some (1995, (1995 / 100 + 1) * 100 + 20)
        else none)) :=
  ⟨by decide, by decide, by decide,
    (c7_try_to_four_digit_range ⟨false, false, true⟩).2.1 1995 20
      (by decide) (by decide) (by decide)⟩

/-! ## Copyright statements (`copyright.rs`) -/

/-- Strings are modelled as lists of characters. -/
abbrev Str := List Char

/-- The ASCII whitespace set of the grammar (`multispace`): space, tab,
carriage return, line feed. -/
def isWsp (c : Char) : Bool := c == ' ' || c == '\t' || c == '\r' || c == '\n'

/-- Rust `str::trim`: remove leading and trailing whitespace. -/
def trimStr (s : Str) : Str :=
  List.rdropWhile isWsp (List.dropWhile isWsp s)

theorem trimStr_idem (s : Str) : trimStr (trimStr s) = trimStr s := by
  unfold trimStr
  have hdw : List.dropWhile isWsp (List.rdropWhile isWsp (List.dropWhile isWsp s)) =
      List.rdropWhile isWsp (List.dropWhile isWsp s) := by
    cases hru : List.rdropWhile isWsp (List.dropWhile isWsp s) with
    | nil => simp
    | cons c tl =>
        obtain ⟨t, ht⟩ := List.dropWhile_suffix (l := (List.dropWhile isWsp s).reverse)
          (p := isWsp)
        have hu2 : List.dropWhile isWsp s =
            List.rdropWhile isWsp (List.dropWhile isWsp s) ++ t.reverse := by
          have h2 := congrArg List.reverse ht
          simp only [List.reverse_append, List.reverse_reverse] at h2
          rw [List.rdropWhile]
          exact h2.symm
        rw [hru] at hu2
        have hne : List.dropWhile isWsp s ≠ [] := by
          rw [hu2]; simp
        have hheadc : (List.dropWhile isWsp s).head hne = c := by
          have : List.dropWhile isWsp s = c :: (tl ++ t.reverse) := by
            rw [hu2]; simp
          simp [this]
        have hnw := List.head_dropWhile_not isWsp s hne
        rw [hheadc] at hnw
        rw [List.dropWhile_cons, if_neg (by simpa using hnw)]
  rw [hdw, List.rdropWhile_idempotent]

/-- `copyright.rs`: `DecomposedCopyright { years, holder }`. -/
structure DecomposedCopyright where
  years : List YearSpec
  holder : Str
  deriving Repr, DecidableEq

/-- `copyright.rs`: `DecomposedCopyright::new` (trims the holder). -/
def DecomposedCopyright.new (years : List YearSpec) (holder : Str) :
    DecomposedCopyright :=
  ⟨years, trimStr holder⟩

/-- `copyright.rs`: `DecomposedCopyright::new_from_single_yearspec`. -/
def DecomposedCopyright.newSingle (yearspec : YearSpec) (holder : Str) :
    DecomposedCopyright :=
  ⟨[yearspec], trimStr holder⟩

/-- `copyright.rs`: `DecomposedCopyright::contains`: the holders match after
trimming, and every year spec of `other` is contained in some of ours. -/
def DecomposedCopyright.contains (d other : DecomposedCopyright) : Bool :=
  (trimStr d.holder == trimStr other.holder)
    && other.years.all (fun otherSpec =>
        d.years.any (fun selfSpec => selfSpec.contains otherSpec))

/-- `copyright.rs`: `Copyright`. -/
inductive Copyright where
  | decomposable (d : DecomposedCopyright)
  | multilineDecomposable (lines : List DecomposedCopyright)
  | complex (text : Str)
  deriving Repr, DecidableEq

/-- `copyright.rs`: `vec_contains_decomposed`. -/
def vecContainsDecomposed (m : List DecomposedCopyright)
    (d2 : DecomposedCopyright) : Bool :=
  m.any (fun d => d.contains d2)

/-- `copyright.rs`: `Copyright::contains`, case for case from the source. -/
def Copyright.contains : Copyright → Copyright → Bool
  | .decomposable d, .decomposable d2 => d.contains d2
  | .decomposable d, .multilineDecomposable m2 =>
      m2.all (fun d2 => d.contains d2)
  | .decomposable _, .complex _ => false
  | .multilineDecomposable m, .decomposable d2 => vecContainsDecomposed m d2
  | .multilineDecomposable m, .multilineDecomposable m2 =>
      m2.all (fun d2 => vecContainsDecomposed m d2)
  | .multilineDecomposable _, .complex _ => false
  | .complex _, .decomposable _ => false
  | .complex _, .multilineDecomposable _ => false
  | .complex c, .complex c2 => c == c2

/-! Spec-side containment relation (§4.3 of the spec, and claim C1):
year-specifier containment is numeric (interval) containment; single-line
containment is trimmed-holder equality plus per-specifier coverage;
multi-line containment is coverage of every line of `other` by some line of
`self`; the opaque variant relates only to an identical opaque variant. -/

/-- Numeric (interval) containment of one year specifier in another: both
endpoints of `other`, read as a closed interval, lie within `self`'s. -/
def specYearSpecContains (s o : YearSpec) : Prop :=
  s.toYearRange.begin ≤ o.toYearRange.begin ∧
    o.toYearRange.yrEnd ≤ s.toYearRange.yrEnd

/-- Spec-side single-line containment. -/
def specLineContains (d other : DecomposedCopyright) : Prop :=
  trimStr d.holder = trimStr other.holder ∧
    ∀ o ∈ other.years, ∃ s ∈ d.years, specYearSpecContains s o

/-- Spec-side statement containment (claim C1's case analysis). -/
def specContains : Copyright → Copyright → Prop
  | .decomposable d, .decomposable d2 => specLineContains d d2
  | .decomposable d, .multilineDecomposable m2 =>
      ∀ d2 ∈ m2, specLineContains d d2
  | .decomposable _, .complex _ => False
  | .multilineDecomposable m, .decomposable d2 =>
      ∃ d ∈ m, specLineContains d d2
  | .multilineDecomposable m, .multilineDecomposable m2 =>
      ∀ d2 ∈ m2, ∃ d ∈ m, specLineContains d d2
  | .multilineDecomposable _, .complex _ => False
  | .complex _, .decomposable _ => False
  | .complex _, .multilineDecomposable _ => False
  | .complex c, .complex c2 => c = c2

/-- Well-formedness of a year specifier: a closed range respects
`YearRange::new`'s invariant. -/
def YearSpec.WFS : YearSpec → Prop
  | .singleYear _ => True
  | .closedRange r => r.WF

instance : DecidablePred YearSpec.WFS := fun s =>
  match s with
  | .singleYear _ => .isTrue trivial
  | .closedRange r => inferInstanceAs (Decidable r.WF)

/-- Well-formedness of a decomposed line. -/
def DecomposedCopyright.WFD (d : DecomposedCopyright) : Prop :=
  ∀ s ∈ d.years, s.WFS

instance : DecidablePred DecomposedCopyright.WFD := fun d =>
  inferInstanceAs (Decidable (∀ s ∈ d.years, s.WFS))

/-- Well-formedness of a statement: every range in it was built by
`YearRange::new`. -/
def Copyright.WFC : Copyright → Prop
  | .decomposable d => d.WFD
  | .multilineDecomposable m => ∀ d ∈ m, d.WFD
  | .complex _ => True

instance : DecidablePred Copyright.WFC := fun c =>
  match c with
  | .decomposable d => inferInstanceAs (Decidable d.WFD)
  | .multilineDecomposable m => inferInstanceAs (Decidable (∀ d ∈ m, d.WFD))
  | .complex _ => .isTrue trivial

/-- `YearSpec::contains` coincides with numeric interval containment on
well-formed specifiers. -/
theorem yearSpec_contains_iff (s o : YearSpec) (hs : s.WFS) (ho : o.WFS) :
    (s.contains o = true ↔ specYearSpecContains s o) := by
  cases s with
  | singleYear y =>
      cases o with
      | singleYear y2 =>
          unfold YearSpec.contains YearSpec.containsYear yearContainsYear
            specYearSpecContains YearSpec.toYearRange
          simp only [beq_iff_eq]
          omega
      | closedRange r =>
          unfold YearSpec.WFS YearRange.WF at ho
          unfold YearSpec.contains YearSpec.containsRange yearContainsRange
            specYearSpecContains YearSpec.toYearRange
          simp only [Bool.and_eq_true, beq_iff_eq]
          omega
  | closedRange r =>
      unfold YearSpec.WFS YearRange.WF at hs
      cases o with
      | singleYear y2 =>
          unfold YearSpec.contains YearSpec.containsYear YearRange.containsYear
            specYearSpecContains YearSpec.toYearRange
          simp only [Bool.and_eq_true, decide_eq_true_eq]
          omega
      | closedRange r2 =>
          unfold YearSpec.WFS YearRange.WF at ho
          unfold YearSpec.contains YearSpec.containsRange YearRange.containsRange
            YearRange.containsYear specYearSpecContains YearSpec.toYearRange
          simp only [Bool.and_eq_true, decide_eq_true_eq]
          omega

/-- `DecomposedCopyright::contains` coincides with the spec-side line
containment on well-formed lines. -/
theorem line_contains_iff (d d2 : DecomposedCopyright)
    (hd : d.WFD) (hd2 : d2.WFD) :
    (d.contains d2 = true ↔ specLineContains d d2) := by
  unfold DecomposedCopyright.contains specLineContains
  rw [Bool.and_eq_true, beq_iff_eq, List.all_eq_true]
  constructor
  · rintro ⟨h1, h2⟩
    refine ⟨h1, ?_⟩
    intro o ho
    obtain ⟨s, hs, hso⟩ := List.any_eq_true.mp (h2 o ho)
    exact ⟨s, hs, (yearSpec_contains_iff s o (hd s hs) (hd2 o ho)).mp hso⟩
  · rintro ⟨h1, h2⟩
    refine ⟨h1, ?_⟩
    intro o ho
    obtain ⟨s, hs, hso⟩ := h2 o ho
    exact List.any_eq_true.mpr
      ⟨s, hs, (yearSpec_contains_iff s o (hd s hs) (hd2 o ho)).mpr hso⟩

/-! ## Claim C1 -/

/-- **C1**: `Copyright::contains` decides exactly the spec's containment
relation on well-formed statements: single-vs-single is trimmed-holder
equality plus numeric coverage of every specifier of `other` by some
specifier of `self`; against a multi-line side it is a coverage test (every
line of `other` contained by at least one line of `self`, not a
bijection); and the opaque variant contains/is contained by only an
identical opaque variant. -/
theorem c1_contains_spec (c1 c2 : Copyright)
    (h1 : c1.WFC) (h2 : c2.WFC) :
    (Copyright.contains c1 c2 = true ↔ specContains c1 c2) := by
  cases c1 with
  | decomposable d =>
      cases c2 with
      | decomposable d2 =>
          exact line_contains_iff d d2 h1 h2
      | multilineDecomposable m2 =>
          unfold Copyright.contains specContains
          rw [List.all_eq_true]
          constructor
          · intro h d2 hd2
            exact (line_contains_iff d d2 h1 (h2 d2 hd2)).mp (h d2 hd2)
          · intro h d2 hd2
            exact (line_contains_iff d d2 h1 (h2 d2 hd2)).mpr (h d2 hd2)
      | complex s => simp [Copyright.contains, specContains]
  | multilineDecomposable m =>
      cases c2 with
      | decomposable d2 =>
          unfold Copyright.contains specContains vecContainsDecomposed
          rw [List.any_eq_true]
          constructor
          · rintro ⟨d, hd, hc⟩
            exact ⟨d, hd, (line_contains_iff d d2 (h1 d hd) h2).mp hc⟩
          · rintro ⟨d, hd, hc⟩
            exact ⟨d, hd, (line_contains_iff d d2 (h1 d hd) h2).mpr hc⟩
      | multilineDecomposable m2 =>
          unfold Copyright.contains specContains vecContainsDecomposed
          rw [List.all_eq_true]
          constructor
          · intro h d2 hd2
            obtain ⟨d, hd, hc⟩ := List.any_eq_true.mp (h d2 hd2)
            exact ⟨d, hd, (line_contains_iff d d2 (h1 d hd) (h2 d2 hd2)).mp hc⟩
          · intro h d2 hd2
            obtain ⟨d, hd, hc⟩ := h d2 hd2
            exact List.any_eq_true.mpr
              ⟨d, hd, (line_contains_iff d d2 (h1 d hd) (h2 d2 hd2)).mpr hc⟩
      | complex s => simp [Copyright.contains, specContains]
  | complex c =>
      cases c2 with
      | decomposable d2 => simp [Copyright.contains, specContains]
      | multilineDecomposable m2 => simp [Copyright.contains, specContains]
      | complex c2 =>
          unfold Copyright.contains specContains
          exact beq_iff_eq

/-- **C1, witness**: the spec's worked example — the two-line statement
"2024, Rylie Pavlik / 2020, 2022-2024, Collabora, Ltd." and the narrower
"2022-2023, Collabora, Ltd.". -/
theorem c1_witness :
    (Copyright.multilineDecomposable
      [⟨[YearSpec.singleYear 2024], "Rylie Pavlik".data⟩,
       ⟨[YearSpec.singleYear 2020, YearSpec.closedRange ⟨2022, 2024⟩],
        "Collabora, Ltd.".data⟩]).WFC ∧
    (Copyright.decomposable
      ⟨[YearSpec.closedRange ⟨2022, 2023⟩], "Collabora, Ltd.".data⟩).WFC ∧
    (Copyright.contains
        (Copyright.multilineDecomposable
          [⟨[YearSpec.singleYear 2024], "Rylie Pavlik".data⟩,
           ⟨[YearSpec.singleYear 2020, YearSpec.closedRange ⟨2022, 2024⟩],
            "Collabora, Ltd.".data⟩])
        (Copyright.decomposable
          ⟨[YearSpec.closedRange ⟨2022, 2023⟩], "Collabora, Ltd.".data⟩) = true ↔
      specContains
        (Copyright.multilineDecomposable
          [⟨[YearSpec.singleYear 2024], "Rylie Pavlik".data⟩,
           ⟨[YearSpec.singleYear 2020, YearSpec.closedRange ⟨2022, 2024⟩],
            "Collabora, Ltd.".data⟩])
        (Copyright.decomposable
          ⟨[YearSpec.closedRange ⟨2022, 2023⟩], "Collabora, Ltd.".data⟩)) :=
  ⟨by decide, by decide, c1_contains_spec _ _ (by decide) (by decide)⟩

/-! ## Claim C10 -/

/-- **C10**: for a `Decomposable` statement `self` with any years, and a
`Decomposable` other built by the public constructor with an empty years
list, containment reduces to trimmed-holder equality: the per-specifier
check is vacuously satisfied. -/
theorem c10_empty_years_contains (ys : List YearSpec) (h h2 : Str) :
    Copyright.contains (.decomposable ⟨ys, h⟩)
        (.decomposable (DecomposedCopyright.new [] h2)) =
      (trimStr h == trimStr h2) := by
  unfold Copyright.contains DecomposedCopyright.contains DecomposedCopyright.new
  simp only [List.all_nil, Bool.and_true]
  rw [trimStr_idem]

/-! ## Interning table (`atom_table.rs`)

`AtomTable<T, I>` holds a dense vector indexed by identity plus a map from
value to identity.  Identities are modelled as the `Nat` index into the
vector; the hash map as an association list. -/

/-- `atom_table.rs`: `AtomTable { vec, map }`. -/
structure AtomTable (T : Type) where
  vec : List T
  map : List (T × Nat)

/-- Association-list lookup (the `HashMap::get` of the model). -/
def alLookup {T : Type} [DecidableEq T] (m : List (T × Nat)) (x : T) : Option Nat :=
  match m with
  | [] => none
  | (k, v) :: rest => if k = x then some v else alLookup rest x

/-- `atom_table.rs`: the loop of `try_transform`: push `f val` for each
entry in identity order (the pushed id always equals the enumeration id,
both being the number of entries pushed so far, so `assert_eq!(new_id, id)`
always holds), and fail fatally (`assert!(old_id_for_this_val.is_none())`,
modelled as `none`) if the mapped value was already present. -/
def tryTransformGo {T U : Type} [DecidableEq U] (f : T → U) :
    List T → List U → List (U × Nat) → Option (AtomTable U)
  | [], accVec, accMap => some ⟨accVec, accMap⟩
  | v :: rest, accVec, accMap =>
      if (alLookup accMap (f v)).isSome then none
      else tryTransformGo f rest (accVec ++ [f v]) (accMap ++ [(f v, accVec.length)])

/-- `atom_table.rs`: `AtomTable::try_transform` (with a total mapping
function; the `Result` error path of `f` is the separate non-fatal channel
and is not exercised by the claim). -/
def AtomTable.tryTransform {T U : Type} [DecidableEq U] (t : AtomTable T)
    (f : T → U) : Option (AtomTable U) :=
  tryTransformGo f t.vec [] []

theorem alLookup_append_single {U : Type} [DecidableEq U]
    (m : List (U × Nat)) (k : U) (n : Nat) (x : U) :
    (alLookup (m ++ [(k, n)]) x).isSome = true ↔
      ((alLookup m x).isSome = true ∨ x = k) := by
  induction m with
  | nil => simp [alLookup]; constructor
           · intro h; by_cases hk : k = x
             · exact hk.symm
             · simp [hk] at h
           · intro h; simp [h.symm]
  | cons p rest ih =>
      obtain ⟨pk, pv⟩ := p
      by_cases hk : pk = x
      · simp [alLookup, hk]
      · simp only [List.cons_append, alLookup, if_neg hk]
        exact ih

theorem tryTransformGo_none_iff {T U : Type} [DecidableEq U] (f : T → U) :
    ∀ (rest : List T) (accVec : List U) (accMap : List (U × Nat)),
    accVec.Nodup →
    (∀ u, (alLookup accMap u).isSome = true ↔ u ∈ accVec) →
    (tryTransformGo f rest accVec accMap = none ↔
      ¬ (accVec ++ rest.map f).Nodup) := by
  intro rest
  induction rest with
  | nil =>
      intro accVec accMap hnd _hkeys
      simp [tryTransformGo, hnd]
  | cons v rest' ih =>
      intro accVec accMap hnd hkeys
      by_cases hmem : (alLookup accMap (f v)).isSome = true
      · have hv : f v ∈ accVec := (hkeys (f v)).mp hmem
        simp only [tryTransformGo, if_pos hmem]
        constructor
        · intro _ hc
          have := List.disjoint_of_nodup_append hc
          exact this hv (by simp)
        · intro _; trivial
      · have hv : f v ∉ accVec := fun hc => hmem ((hkeys (f v)).mpr hc)
        simp only [tryTransformGo, if_neg hmem]
        have hnd' : (accVec ++ [f v]).Nodup := by
          rw [List.nodup_append]
          exact ⟨hnd, List.nodup_singleton _, by simpa using hv⟩
        have hkeys' : ∀ u, (alLookup (accMap ++ [(f v, accVec.length)]) u).isSome = true ↔
            u ∈ accVec ++ [f v] := by
          intro u
          rw [alLookup_append_single, hkeys u]
          simp
        rw [ih (accVec ++ [f v]) _ hnd' hkeys']
        rw [List.append_assoc]
        simp

theorem tryTransformGo_some_vec {T U : Type} [DecidableEq U] (f : T → U) :
    ∀ (rest : List T) (accVec : List U) (accMap : List (U × Nat))
      (t' : AtomTable U),
    tryTransformGo f rest accVec accMap = some t' →
    t'.vec = accVec ++ rest.map f := by
  intro rest
  induction rest with
  | nil =>
      intro accVec accMap t' h
      simp only [tryTransformGo, Option.some_inj] at h
      simp [← h]
  | cons v rest' ih =>
      intro accVec accMap t' h
      simp only [tryTransformGo] at h
      by_cases hmem : (alLookup accMap (f v)).isSome = true
      · rw [if_pos hmem] at h; cases h
      · rw [if_neg hmem] at h
        have := ih _ _ _ h
        rw [this, List.append_assoc]
        simp

/-! ## Claim C8 -/

/-- **C8**: on a table whose values are pairwise distinct (the table
invariant), `try_transform` succeeds for every mapping that is injective on
the stored values, rebuilding the vector in the same identity order
(entry `i` of the new vector is `f` of entry `i` of the old); and it fails
fatally (assertion, modelled as `none`) whenever the mapping sends the
values of two distinct identities to equal outputs. -/
theorem c8_tryTransform {T U : Type} [DecidableEq T] [DecidableEq U]
    (t : AtomTable T) (f : T → U) (hnd : t.vec.Nodup) :
    ((∀ x ∈ t.vec, ∀ y ∈ t.vec, f x = f y → x = y) →
      ∃ t' : AtomTable U, t.tryTransform f = some t' ∧ t'.vec = t.vec.map f) ∧
    ((∃ x ∈ t.vec, ∃ y ∈ t.vec, x ≠ y ∧ f x = f y) →
      t.tryTransform f = none) := by
  have hbase := tryTransformGo_none_iff f t.vec [] [] (List.nodup_nil)
    (by intro u; simp [alLookup])
  simp only [List.nil_append] at hbase
  constructor
  · intro hinj
    have hmapnd : (t.vec.map f).Nodup := List.Nodup.map_on hinj hnd
    have hne : t.tryTransform f ≠ none := by
      unfold AtomTable.tryTransform
      intro hc
      exact (hbase.mp hc) hmapnd
    obtain ⟨t', ht'⟩ := Option.ne_none_iff_exists'.mp hne
    refine ⟨t', ht', ?_⟩
    have := tryTransformGo_some_vec f t.vec [] [] t' ht'
    simpa using this
  · rintro ⟨x, hx, y, hy, hxy, hfxy⟩
    unfold AtomTable.tryTransform
    rw [hbase]
    intro hc
    exact hxy (List.inj_on_of_nodup_map hc hx hy hfxy)

/-- **C8, witness**: a concrete two-entry table under the injective mapping
`(· + 1)`. -/
theorem c8_witness :
    ([10, 11] : List Nat).Nodup ∧
    ∃ t' : AtomTable Nat,
      (AtomTable.mk [10, 11] [(10, 0), (11, 1)]).tryTransform (· + 1) = some t' ∧
      t'.vec = [10, 11].map (· + 1) :=
  ⟨by decide,
    (c8_tryTransform (AtomTable.mk [10, 11] [(10, 0), (11, 1)]) (· + 1)
      (by decide)).1 (by decide)⟩

/-! ## Copyright data tree (`tree.rs`)

The arena (`indextree`) path tree is modelled as a rose tree: each node
carries its optional interned `MetadataId` (a `Nat`) and its list of
children (a mutually inductive forest, so that the bottom-up pass is
structural).  `propagate_metadata` records the `NodeEdge::End` order of the
traversal — post-order, children strictly before parents — and then
promotes at each node in that order; the recursion below visits children
first and then decides the parent, which is exactly that pass. -/

mutual
inductive MTree where
  | node (meta : Option Nat) (children : MForest)
inductive MForest where
  | nil
  | cons (t : MTree) (ts : MForest)
end

/-- The node's own metadata id. -/
def MTree.meta : MTree → Option Nat
  | .node m _ => m

/-- The node's children as a list. -/
def MForest.toList : MForest → List MTree
  | .nil => []
  | .cons t ts => t :: ts.toList

/-- itertools `unique()`: distinct elements in first-occurrence order
(`seen` accumulates the elements already produced). -/
def uniqueFirst : List (Option Nat) → List (Option Nat) → List (Option Nat)
  | [], _ => []
  | x :: rest, seen =>
      if x ∈ seen then uniqueFirst rest seen
      else x :: uniqueFirst rest (x :: seen)

/-- `tree.rs`: `get_common_child_metadata_id_if_any` applied to the list of
the direct children's metadata options: take the `unique()` stream; if the
first unique element is `Some(Some(id))` and nothing is left after it,
return the id, else `None`. -/
def getCommonChildMeta (ms : List (Option Nat)) : Option Nat :=
  match uniqueFirst ms [] with
  | [some id] => some id
  | _ => none

/-- The children's metadata options, in order. -/
def metasOf (f : MForest) : List (Option Nat) :=
  f.toList.map MTree.meta

mutual
/-- `tree.rs`: `propagate_metadata`, restricted to one subtree: visit the
children (post-order), then promote the common child metadata id onto this
node if there is one, else leave the node's metadata unchanged. -/
def propagateMetadata : MTree → MTree
  | .node m cs =>
      match getCommonChildMeta (metasOf (propagateForest cs)) with
      | some id => .node (some id) (propagateForest cs)
      | none => .node m (propagateForest cs)
/-- The same pass over a forest of siblings. -/
def propagateForest : MForest → MForest
  | .nil => .nil
  | .cons t ts => .cons (propagateMetadata t) (propagateForest ts)
end

theorem propagateForest_toList : ∀ cs : MForest,
    (propagateForest cs).toList = cs.toList.map propagateMetadata
  | .nil => rfl
  | .cons t ts => by
      simp [propagateForest, MForest.toList, propagateForest_toList ts]

theorem uniqueFirst_eq_nil_iff (ms seen : List (Option Nat)) :
    uniqueFirst ms seen = [] ↔ ∀ y ∈ ms, y ∈ seen := by
  induction ms generalizing seen with
  | nil => simp [uniqueFirst]
  | cons x rest ih =>
      by_cases hx : x ∈ seen
      · simp only [uniqueFirst, if_pos hx]
        rw [ih seen]
        simp [hx]
      · simp only [uniqueFirst, if_neg hx]
        simp only [List.mem_cons, forall_eq_or_imp]
        constructor
        · intro hc; cases hc
        · rintro ⟨h1, _⟩; exact absurd h1 hx

theorem uniqueFirst_singleton_iff (ms : List (Option Nat)) (x : Option Nat) :
    uniqueFirst ms [] = [x] ↔ (ms ≠ [] ∧ ∀ y ∈ ms, y = x) := by
  cases ms with
  | nil => simp [uniqueFirst]
  | cons y rest =>
      have hstep : uniqueFirst (y :: rest) [] = y :: uniqueFirst rest [y] := by
        simp [uniqueFirst]
      rw [hstep]
      constructor
      · intro h
        have hy : y = x := (List.cons_eq_cons.mp h).1
        have hrest : uniqueFirst rest [y] = [] := (List.cons_eq_cons.mp h).2
        have := (uniqueFirst_eq_nil_iff rest [y]).mp hrest
        refine ⟨by simp, ?_⟩
        intro z hz
        rcases List.mem_cons.mp hz with rfl | hz'
        · exact hy
        · have := this z hz'
          simp at this
          rw [this, hy]
      · rintro ⟨_, hall⟩
        have hy : y = x := hall y (by simp)
        rw [hy]
        congr 1
        rw [uniqueFirst_eq_nil_iff]
        intro z hz
        have := hall z (by simp [hz])
        simp [this, hy]

theorem getCommonChildMeta_eq_some_iff (ms : List (Option Nat)) (id : Nat) :
    getCommonChildMeta ms = some id ↔ (ms ≠ [] ∧ ∀ y ∈ ms, y = some id) := by
  unfold getCommonChildMeta
  rcases hu : uniqueFirst ms [] with _ | ⟨x, tl⟩
  · simp only
    rw [← uniqueFirst_singleton_iff ms (some id), hu]
    simp
  · cases tl with
    | nil =>
        cases x with
        | none =>
            simp only
            rw [← uniqueFirst_singleton_iff ms (some id), hu]
            simp
        | some j =>
            simp only [Option.some_inj]
            constructor
            · rintro rfl
              exact (uniqueFirst_singleton_iff ms (some j)).mp hu
            · intro h
              have := (uniqueFirst_singleton_iff ms (some id)).mpr h
              rw [hu] at this
              exact Option.some_inj.mp (List.cons_eq_cons.mp this).1
    | cons z tl' =>
        simp only
        rw [← uniqueFirst_singleton_iff ms (some id), hu]
        simp

/-! ## Claim C9 -/

/-- **C9**: `propagate_metadata` is one bottom-up post-order pass: the
children of the result are the propagated children (so promotion cascades
across levels); a node whose (propagated) direct children are non-empty and
all carry the identical `Some id` carries that id afterwards; a node with no
children, or whose direct children disagree or include a `None`, keeps its
own metadata unchanged. -/
theorem c9_propagate_bottom_up (m : Option Nat) (cs : MForest) :
    (∃ m', propagateMetadata (MTree.node m cs) = MTree.node m' (propagateForest cs)) ∧
    ((propagateForest cs).toList = cs.toList.map propagateMetadata) ∧
    (∀ id, cs.toList ≠ [] →
      (∀ c ∈ cs.toList, (propagateMetadata c).meta = some id) →
      (propagateMetadata (MTree.node m cs)).meta = some id) ∧
    ((cs.toList = [] ∨
        ¬ ∃ id, ∀ c ∈ cs.toList, (propagateMetadata c).meta = some id) →
      (propagateMetadata (MTree.node m cs)).meta = m) := by
  have hmetas : ∀ id, (∀ y ∈ metasOf (propagateForest cs), y = some id) ↔
      (∀ c ∈ cs.toList, (propagateMetadata c).meta = some id) := by
    intro id
    unfold metasOf
    rw [propagateForest_toList]
    simp
  have hnil : metasOf (propagateForest cs) = [] ↔ cs.toList = [] := by
    unfold metasOf
    rw [propagateForest_toList]
    simp
  refine ⟨?_, propagateForest_toList cs, ?_, ?_⟩
  · unfold propagateMetadata
    cases hg : getCommonChildMeta (metasOf (propagateForest cs)) with
    | none => exact ⟨m, rfl⟩
    | some id => exact ⟨some id, rfl⟩
  · intro id hne hall
    have hg : getCommonChildMeta (metasOf (propagateForest cs)) = some id := by
      rw [getCommonChildMeta_eq_some_iff]
      refine ⟨fun hc => hne (hnil.mp hc), (hmetas id).mpr hall⟩
    unfold propagateMetadata
    rw [hg]
    rfl
  · intro hcase
    have hg : getCommonChildMeta (metasOf (propagateForest cs)) = none := by
      cases hg : getCommonChildMeta (metasOf (propagateForest cs)) with
      | none => rfl
      | some id =>
          obtain ⟨hne, hall⟩ := (getCommonChildMeta_eq_some_iff _ id).mp hg
          rcases hcase with hnil' | hnex
          · exact absurd (hnil.mpr hnil') hne
          · exact absurd ⟨id, (hmetas id).mp hall⟩ hnex
    unfold propagateMetadata
    rw [hg]
    rfl

/-- **C9, witness**: a parent with two children both carrying metadata id 3
is promoted to id 3. -/
theorem c9_witness :
    (MForest.cons (MTree.node (some 3) .nil)
      (MForest.cons (MTree.node (some 3) .nil) .nil)).toList ≠ [] ∧
    (∀ c ∈ (MForest.cons (MTree.node (some 3) .nil)
        (MForest.cons (MTree.node (some 3) .nil) .nil)).toList,
      (propagateMetadata c).meta = some 3) ∧
    (propagateMetadata (MTree.node none
      (MForest.cons (MTree.node (some 3) .nil)
        (MForest.cons (MTree.node (some 3) .nil) .nil)))).meta = some 3 :=
  ⟨by simp [MForest.toList], by decide,
    (c9_propagate_bottom_up none
        (MForest.cons (MTree.node (some 3) .nil)
          (MForest.cons (MTree.node (some 3) .nil) .nil))).2.2.1 3
      (by simp [MForest.toList]) (by decide)⟩

/-! ## The copyright grammar (`raw_year/parse.rs`, `copyright_parsing.rs`)

nom parsers over `&str` are modelled as functions `Str → PRes α`:
`done rest val` is `Ok((rest, val))`, `fail` is a recoverable
`nom::Err::Error` (the only error kind these grammars produce), and
`panic` is a Rust panic (a failed `assert!`).  `alt` retries on `fail` and
propagates `panic`. -/

inductive PRes (α : Type) where
  | panic
  | fail
  | done (rest : Str) (val : α)
  deriving Repr

instance {α : Type} [DecidableEq α] : DecidableEq (PRes α) := fun a b =>
  match a, b with
  | .panic, .panic => .isTrue rfl
  | .fail, .fail => .isTrue rfl
  | .done r v, .done r2 v2 =>
      if h : r = r2 ∧ v = v2 then .isTrue (by rw [h.1, h.2])
      else .isFalse (by intro hc; cases hc; exact h ⟨rfl, rfl⟩)
  | .panic, .fail => .isFalse (by intro hc; cases hc)
  | .panic, .done _ _ => .isFalse (by intro hc; cases hc)
  | .fail, .panic => .isFalse (by intro hc; cases hc)
  | .fail, .done _ _ => .isFalse (by intro hc; cases hc)
  | .done _ _, .panic => .isFalse (by intro hc; cases hc)
  | .done _ _, .fail => .isFalse (by intro hc; cases hc)

abbrev PFun (α : Type) := Str → PRes α

/-- `alt` of two parsers: try the second on a recoverable error. -/
def palt2 {α : Type} (p q : PFun α) : PFun α := fun i =>
  match p i with
  | .fail => q i
  | r => r

/-- `map`. -/
def pmap {α β : Type} (f : α → β) (p : PFun α) : PFun β := fun i =>
  match p i with
  | .done r v => .done r (f v)
  | .fail => .fail
  | .panic => .panic

/-- ASCII space or tab (`nom::character::complete::space0/1`). -/
def isSp (c : Char) : Bool := c == ' ' || c == '\t'

/-- `space1`: at least one space/tab. -/
def space1P : PFun Unit := fun i =>
  match i with
  | c :: rest => if isSp c then .done (rest.dropWhile isSp) () else .fail
  | [] => .fail

/-- `one_of "0123456789")`, returning the digit's value. -/
def pdigit : PFun Nat := fun i =>
  match i with
  | c :: rest =>
      if '0' ≤ c && c ≤ '9' then .done rest (c.toNat - 48) else .fail
  | [] => .fail

/-- `tag`. -/
def ptag (t : Str) : PFun Unit := fun i =>
  if t.isPrefixOf i then .done (i.drop t.length) () else .fail

/-- ASCII lowercasing, as used by `tag_no_case`. -/
def lowerA (c : Char) : Char :=
  if 'A' ≤ c && c ≤ 'Z' then Char.ofNat (c.toNat + 32) else c

/-- `tag_no_case`. -/
def ptagNoCase (t : Str) : PFun Unit := fun i =>
  if (i.take t.length).map lowerA == t.map lowerA
  then .done (i.drop t.length) () else .fail

/-- `raw_year/parse.rs`: `century` (`alt((tag("19"), tag("20")))`), with the
matched century value. -/
def pcentury : PFun Nat :=
  palt2 (pmap (fun _ => 19) (ptag ['1', '9']))
    (pmap (fun _ => 20) (ptag ['2', '0']))

/-- `raw_year/parse.rs`: `four_digit_year`:
`recognize(pair(century, count(digit, 2)))` parsed as a number and passed
to `FourDigitYear::new`, whose `assert!(year > 99)` is the `panic` arm. -/
def fourDigitYearP : PFun Nat := fun i =>
  match pcentury i with
  | .done r1 c =>
      match pdigit r1 with
      | .done r2 d1 =>
          match pdigit r2 with
          | .done r3 d2 =>
              if 99 < c * 100 + d1 * 10 + d2
              then .done r3 (c * 100 + d1 * 10 + d2)
              else .panic
          | .fail => .fail
          | .panic => .panic
      | .fail => .fail
      | .panic => .panic
  | .fail => .fail
  | .panic => .panic

/-- `raw_year/parse.rs`: `two_digit_year`: two digits parsed as a number
and passed to `TwoDigitYear::new`, whose `assert!(year < 100)` is the
`panic` arm. -/
def twoDigitYearP : PFun Nat := fun i =>
  match pdigit i with
  | .done r1 d1 =>
      match pdigit r1 with
      | .done r2 d2 =>
          if d1 * 10 + d2 < 100 then .done r2 (d1 * 10 + d2) else .panic
      | .fail => .fail
      | .panic => .panic
  | .fail => .fail
  | .panic => .panic

/-- `raw_year/parse.rs`: `year`: a four-digit year, else a two-digit year. -/
def yearP : PFun YearExpr :=
  palt2 (pmap YearExpr.fourDigit fourDigitYearP)
    (pmap YearExpr.twoDigit twoDigitYearP)

/-- `raw_year/parse.rs`: `range_delim` (`space0, "-", space0`). -/
def rangeDelimP : PFun Unit := fun i =>
  match ptag ['-'] (i.dropWhile isSp) with
  | .done r _ => .done (r.dropWhile isSp) ()
  | .fail => .fail
  | .panic => .panic

/-- `separated_pair` of two year parsers around `range_delim`. -/
def sepYearPair (p q : PFun Nat) (fb fe : Nat → YearExpr) :
    PFun (YearExpr × YearExpr) := fun i =>
  match p i with
  | .done r1 b =>
      match rangeDelimP r1 with
      | .done r2 _ =>
          match q r2 with
          | .done r3 e => .done r3 (fb b, fe e)
          | .fail => .fail
          | .panic => .panic
      | .fail => .fail
      | .panic => .panic
  | .fail => .fail
  | .panic => .panic

/-- `raw_year/parse.rs`: `year_range`: the four shapes, 4-4 first. -/
def yearRangeP : PFun (YearExpr × YearExpr) :=
  palt2 (sepYearPair fourDigitYearP fourDigitYearP .fourDigit .fourDigit)
    (palt2 (sepYearPair fourDigitYearP twoDigitYearP .fourDigit .twoDigit)
      (palt2 (sepYearPair twoDigitYearP fourDigitYearP .twoDigit .fourDigit)
        (sepYearPair twoDigitYearP twoDigitYearP .twoDigit .twoDigit)))

/-- `raw_year/parse.rs`: `year_spec`: optional leading spaces, then a year
range, else a single year as the pair `(y, y)`. -/
def rawYearSpecP : PFun (YearExpr × YearExpr) := fun i =>
  palt2 yearRangeP (pmap (fun y => (y, y)) yearP) (i.dropWhile isSp)

/-- `copyright_parsing.rs`: `year_spec`: normalize the raw pair; an equal
pair collapses to a single year via the default heuristic, otherwise
`try_to_four_digit_range` must succeed (`map_opt`), and the resulting pair
feeds `YearRange::new`, whose `assert!(begin <= end)` is the `panic` arm. -/
def yearSpecP (opts : YearRangeNormalization) : PFun YearSpec := fun i =>
  match rawYearSpecP (i.dropWhile isSp) with
  | .done r (b, e) =>
      if b == e then .done r (YearSpec.singleYear b.toFourDigit)
      else
        match tryToFourDigitRange opts (b, e) with
        | some (b4, e4) =>
            if b4 ≤ e4 then .done r (YearSpec.closedRange ⟨b4, e4⟩) else .panic
        | none => .fail
  | .fail => .fail
  | .panic => .panic

/-- `delimited(space0, tag(","), space0)` (also the `verify`d holder
separator of `copyright_line`; the verified recognized text always
contains the comma, so the non-emptiness check always passes). -/
def commaSepP : PFun Unit := fun i =>
  match ptag [','] (i.dropWhile isSp) with
  | .done r _ => .done (r.dropWhile isSp) ()
  | .fail => .fail
  | .panic => .panic

/-- The year-list separator: a comma with optional spaces, else spaces. -/
def listSepP : PFun Unit := palt2 commaSepP space1P

/-- The loop of `separated_list1`: try separator then element; stop (without
consuming the separator) when either fails; a separator match that consumes
nothing is nom's infinite-loop protection error.  Each successful iteration
consumes input, so fuel `|input| + 1` never runs out. -/
def sepList1Go {α : Type} (sep : PFun Unit) (p : PFun α) :
    Nat → Str → List α → PRes (List α)
  | 0, _, _ => .fail
  | fuel + 1, i, acc =>
      match sep i with
      | .panic => .panic
      | .fail => .done i acc.reverse
      | .done r1 _ =>
          if r1.length == i.length then .fail
          else
            match p r1 with
            | .panic => .panic
            | .fail => .done i acc.reverse
            | .done r2 v => sepList1Go sep p fuel r2 (v :: acc)

/-- `separated_list1`. -/
def sepList1 {α : Type} (sep : PFun Unit) (p : PFun α) : PFun (List α) :=
  fun i =>
  match p i with
  | .panic => .panic
  | .fail => .fail
  | .done r v => sepList1Go sep p (r.length + 1) r [v]

/-- `copyright_parsing.rs`: `year_spec_vec`. -/
def yearSpecVecP (opts : YearRangeNormalization) : PFun (List YearSpec) :=
  sepList1 listSepP (yearSpecP opts)

/-- `copyright_parsing.rs`: `copyright_prefix`: an optional
`(multispace0, "copyright" | "copyright (C)" | "copr", multispace0)`;
`opt` consumes nothing when the tuple fails. -/
def copyrightPfxP : PFun Unit := fun i =>
  match palt2 (ptagNoCase "copyright".data)
      (palt2 (ptagNoCase "copyright (C)".data) (ptagNoCase "copr".data))
      (i.dropWhile isWsp) with
  | .done r _ => .done (r.dropWhile isWsp) ()
  | .fail => .done i ()
  | .panic => .panic

/-- `not_line_ending`: everything up to (not including) `\n` or `\r\n`; a
bare `\r` is an error. -/
def notLineEndingP : PFun Str := fun i =>
  match i.dropWhile (fun c => !(c == '\r' || c == '\n')) with
  | '\r' :: tl =>
      match tl with
      | '\n' :: _ =>
          .done ('\r' :: tl) (i.takeWhile (fun c => !(c == '\r' || c == '\n')))
      | _ => .fail
  | rest => .done rest (i.takeWhile (fun c => !(c == '\r' || c == '\n')))

/-- `copyright_parsing.rs`: `copyright_line`: optional prefix, the year
list, the mandatory comma separator, then the rest of the line (trimmed by
`DecomposedCopyright::new`) as the holder. -/
def copyrightLineP (opts : YearRangeNormalization) :
    PFun DecomposedCopyright := fun i =>
  match copyrightPfxP i with
  | .done r0 _ =>
      match yearSpecVecP opts r0 with
      | .done r1 ys =>
          match commaSepP r1 with
          | .done r2 _ =>
              match notLineEndingP r2 with
              | .done r3 holder => .done r3 (DecomposedCopyright.new ys holder)
              | .fail => .fail
              | .panic => .panic
          | .fail => .fail
          | .panic => .panic
      | .fail => .fail
      | .panic => .panic
  | .fail => .fail
  | .panic => .panic

/-- `terminated(copyright_line(options), multispace0)`. -/
def lineTermP (opts : YearRangeNormalization) : PFun DecomposedCopyright :=
  fun i =>
  match copyrightLineP opts i with
  | .done r v => .done (r.dropWhile isWsp) v
  | .fail => .fail
  | .panic => .panic

/-- The loop of `many1` after a successful first element: keep parsing;
stop on a recoverable error; a successful match that consumes nothing is
nom's infinite-loop protection error. -/
def many1Go {α : Type} (p : PFun α) : Nat → Str → List α → PRes (List α)
  | 0, _, _ => .fail
  | fuel + 1, i, acc =>
      match p i with
      | .panic => .panic
      | .fail => .done i acc.reverse
      | .done r v =>
          if r.length == i.length then .fail
          else many1Go p fuel r (v :: acc)

/-- `many1`. -/
def many1 {α : Type} (p : PFun α) : PFun (List α) := fun i =>
  match p i with
  | .panic => .panic
  | .fail => .fail
  | .done r v => many1Go p (r.length + 1) r [v]

/-- `copyright_lines`' first alternative result shaping: one parsed line is
the single-statement variant, more are the multi-line variant. -/
def linesToCopyright : List DecomposedCopyright → Copyright
  | [d] => Copyright.decomposable d
  | parsed => Copyright.multilineDecomposable parsed

/-- `terminated(copyright_line(options), tuple((multispace0, eof)))`. -/
def lineEofP (opts : YearRangeNormalization) : PFun DecomposedCopyright :=
  fun i =>
  match copyrightLineP opts i with
  | .done r v =>
      if (r.dropWhile isWsp).isEmpty then .done (r.dropWhile isWsp) v
      else .fail
  | .fail => .fail
  | .panic => .panic

/-- `map(preceded(multispace0, rest), |s| Copyright::Complex(s.trim()))`:
always succeeds, consuming everything. -/
def complexP : PFun Copyright := fun i =>
  .done [] (Copyright.complex (trimStr (i.dropWhile isWsp)))

/-- `copyright_parsing.rs`: `copyright_lines`: one or more lines, else one
line before end of input, else the opaque fallback. -/
def copyrightLinesP (opts : YearRangeNormalization) : PFun Copyright :=
  palt2 (pmap linesToCopyright (many1 (lineTermP opts)))
    (palt2 (pmap Copyright.decomposable (lineEofP opts)) complexP)

/-- `copyright.rs`: `Copyright::try_parse`: run `copyright_lines`,
`finish()`, and keep the parsed value, discarding any leftover input. -/
def tryParse (opts : YearRangeNormalization) (s : Str) : PRes Copyright :=
  match copyrightLinesP opts s with
  | .done _leftover parsed => .done [] parsed
  | .fail => .fail
  | .panic => .panic

/-! Post-conditions of the year token parsers, and the fact that no parser
of the grammar can panic: every `assert!` on the parsing path is satisfied
for every input.  The year values produced by the token parsers
(`ValidYE`) make every normalized range proper, so `YearRange::new`'s
assertion always holds. -/

/-- Values producible by the year token parsers: a two-digit token is
`< 100` (two digits), a four-digit token starts with `19` or `20` and so
is at least `1900`. -/
def ValidYE : YearExpr → Prop
  | .twoDigit y => y < 100
  | .fourDigit y => 1900 ≤ y

theorem pdigit_done (i r : Str) (v : Nat) (h : pdigit i = .done r v) :
    v ≤ 9 := by
  unfold pdigit at h
  split at h
  next c rest =>
    split at h
    next hc =>
      cases h
      simp only [Bool.and_eq_true, decide_eq_true_eq] at hc
      have h9 : c.toNat ≤ 57 := by
        have := hc.2
        simp [Char.le_def] at this
        exact this
      omega
    next => cases h
  next => cases h

theorem np_pdigit (i : Str) : pdigit i ≠ .panic := by
  unfold pdigit
  split
  next c rest => split <;> (intro h; cases h)
  next => intro h; cases h

theorem np_ptag (t i : Str) : ptag t i ≠ .panic := by
  unfold ptag
  by_cases hp : t.isPrefixOf i
  · rw [if_pos hp]; intro h; cases h
  · rw [if_neg hp]; intro h; cases h

theorem np_ptagNoCase (t i : Str) : ptagNoCase t i ≠ .panic := by
  unfold ptagNoCase
  by_cases hp : ((i.take t.length).map lowerA == t.map lowerA) = true
  · rw [if_pos hp]; intro h; cases h
  · rw [if_neg hp]; intro h; cases h

theorem np_pmap {α β : Type} (f : α → β) (p : PFun α)
    (hp : ∀ i, p i ≠ .panic) : ∀ i, pmap f p i ≠ .panic := by
  intro i h
  unfold pmap at h
  split at h
  · cases h
  · cases h
  · exact hp i ‹p i = PRes.panic›

theorem np_palt2 {α : Type} (p q : PFun α)
    (hp : ∀ i, p i ≠ .panic) (hq : ∀ i, q i ≠ .panic) :
    ∀ i, palt2 p q i ≠ .panic := by
  intro i h
  unfold palt2 at h
  split at h
  · exact hq i h
  · exact hp i h

theorem pmap_done {α β : Type} (f : α → β) (p : PFun α) (i r : Str) (v : β)
    (h : pmap f p i = .done r v) : ∃ w, p i = .done r w ∧ v = f w := by
  unfold pmap at h
  split at h
  next r2 w heq => cases h; exact ⟨w, heq, rfl⟩
  · cases h
  · cases h

theorem palt2_done {α : Type} (p q : PFun α) (i r : Str) (v : α)
    (h : palt2 p q i = .done r v) : p i = .done r v ∨ q i = .done r v := by
  unfold palt2 at h
  split at h
  · exact Or.inr h
  · exact Or.inl h

theorem pcentury_done (i r : Str) (c : Nat) (h : pcentury i = .done r c) :
    c = 19 ∨ c = 20 := by
  rcases palt2_done _ _ _ _ _ h with h1 | h1
  · obtain ⟨w, _, hv⟩ := pmap_done _ _ _ _ _ h1
    exact Or.inl hv
  · obtain ⟨w, _, hv⟩ := pmap_done _ _ _ _ _ h1
    exact Or.inr hv

theorem np_pcentury (i : Str) : pcentury i ≠ .panic :=
  np_palt2 _ _ (np_pmap _ _ (np_ptag _)) (np_pmap _ _ (np_ptag _)) i

theorem np_fourDigitYearP (i : Str) : fourDigitYearP i ≠ .panic := by
  intro h
  unfold fourDigitYearP at h
  split at h
  next r1 c hc =>
    split at h
    next r2 d1 hd1 =>
      split at h
      next r3 d2 hd2 =>
        split at h
        · cases h
        next hgt =>
          have hcv := pcentury_done i r1 c hc
          omega
      · cases h
      next hd2 => exact np_pdigit _ hd2
    · cases h
    next hd1 => exact np_pdigit _ hd1
  · cases h
  next hc => exact np_pcentury _ hc

theorem fourDigitYearP_done (i r : Str) (v : Nat)
    (h : fourDigitYearP i = .done r v) : 1900 ≤ v := by
  unfold fourDigitYearP at h
  split at h
  next r1 c hc =>
    split at h
    next r2 d1 hd1 =>
      split at h
      next r3 d2 hd2 =>
        split at h
        next hgt =>
          cases h
          have hcv := pcentury_done i r1 c hc
          omega
        · cases h
      · cases h
      · cases h
    · cases h
    · cases h
  · cases h
  · cases h

theorem np_twoDigitYearP (i : Str) : twoDigitYearP i ≠ .panic := by
  intro h
  unfold twoDigitYearP at h
  split at h
  next r1 d1 hd1 =>
    split at h
    next r2 d2 hd2 =>
      split at h
      · cases h
      next hlt =>
        have hb1 := pdigit_done i r1 d1 hd1
        have hb2 := pdigit_done r1 r2 d2 hd2
        omega
    · cases h
    next hd2 => exact np_pdigit _ hd2
  · cases h
  next hd1 => exact np_pdigit _ hd1

theorem twoDigitYearP_done (i r : Str) (v : Nat)
    (h : twoDigitYearP i = .done r v) : v < 100 := by
  unfold twoDigitYearP at h
  split at h
  next r1 d1 hd1 =>
    split at h
    next r2 d2 hd2 =>
      split at h
      next hlt => cases h; omega
      · cases h
    · cases h
    · cases h
  · cases h
  · cases h

theorem np_rangeDelimP (i : Str) : rangeDelimP i ≠ .panic := by
  intro h
  unfold rangeDelimP at h
  split at h
  · cases h
  · cases h
  next ht => exact np_ptag _ _ ht

theorem np_sepYearPair (p q : PFun Nat) (fb fe : Nat → YearExpr)
    (hp : ∀ i, p i ≠ .panic) (hq : ∀ i, q i ≠ .panic) :
    ∀ i, sepYearPair p q fb fe i ≠ .panic := by
  intro i h
  unfold sepYearPair at h
  split at h
  next r1 b hpi =>
    split at h
    next r2 u hd =>
      split at h
      · cases h
      · cases h
      next hqi => exact hq _ hqi
    · cases h
    next hd => exact np_rangeDelimP _ hd
  · cases h
  next hpi => exact hp i hpi

theorem sepYearPair_done (p q : PFun Nat) (fb fe : Nat → YearExpr)
    (P Q : Nat → Prop)
    (hp : ∀ i r v, p i = .done r v → P v)
    (hq : ∀ i r v, q i = .done r v → Q v)
    (i r : Str) (be : YearExpr × YearExpr)
    (h : sepYearPair p q fb fe i = .done r be) :
    ∃ b e, be = (fb b, fe e) ∧ P b ∧ Q e := by
  unfold sepYearPair at h
  split at h
  next r1 b hpi =>
    split at h
    next r2 u hd =>
      split at h
      next r3 e hqi =>
        cases h
        exact ⟨b, e, rfl, hp i r1 b hpi, hq r2 r e hqi⟩
      · cases h
      · cases h
    · cases h
    · cases h
  · cases h
  · cases h

theorem np_yearRangeP (i : Str) : yearRangeP i ≠ .panic := by
  refine np_palt2 _ _ ?_ (np_palt2 _ _ ?_ (np_palt2 _ _ ?_ ?_)) i <;>
    first
      | exact np_sepYearPair _ _ _ _ np_fourDigitYearP np_fourDigitYearP
      | exact np_sepYearPair _ _ _ _ np_fourDigitYearP np_twoDigitYearP
      | exact np_sepYearPair _ _ _ _ np_twoDigitYearP np_fourDigitYearP
      | exact np_sepYearPair _ _ _ _ np_twoDigitYearP np_twoDigitYearP

theorem yearRangeP_done (i r : Str) (be : YearExpr × YearExpr)
    (h : yearRangeP i = .done r be) : ValidYE be.1 ∧ ValidYE be.2 := by
  rcases palt2_done _ _ _ _ _ h with h1 | h1
  · obtain ⟨b, e, rfl, hb, he⟩ := sepYearPair_done _ _ _ _ _ _
      fourDigitYearP_done fourDigitYearP_done _ _ _ h1
    exact ⟨hb, he⟩
  rcases palt2_done _ _ _ _ _ h1 with h2 | h2
  · obtain ⟨b, e, rfl, hb, he⟩ := sepYearPair_done _ _ _ _ _ _
      fourDigitYearP_done twoDigitYearP_done _ _ _ h2
    exact ⟨hb, he⟩
  rcases palt2_done _ _ _ _ _ h2 with h3 | h3
  · obtain ⟨b, e, rfl, hb, he⟩ := sepYearPair_done _ _ _ _ _ _
      twoDigitYearP_done fourDigitYearP_done _ _ _ h3
    exact ⟨hb, he⟩
  · obtain ⟨b, e, rfl, hb, he⟩ := sepYearPair_done _ _ _ _ _ _
      twoDigitYearP_done twoDigitYearP_done _ _ _ h3
    exact ⟨hb, he⟩

theorem np_yearP (i : Str) : yearP i ≠ .panic :=
  np_palt2 _ _ (np_pmap _ _ np_fourDigitYearP) (np_pmap _ _ np_twoDigitYearP) i

theorem yearP_done (i r : Str) (v : YearExpr) (h : yearP i = .done r v) :
    ValidYE v := by
  rcases palt2_done _ _ _ _ _ h with h1 | h1
  · obtain ⟨w, hw, rfl⟩ := pmap_done _ _ _ _ _ h1
    exact fourDigitYearP_done _ _ _ hw
  · obtain ⟨w, hw, rfl⟩ := pmap_done _ _ _ _ _ h1
    exact twoDigitYearP_done _ _ _ hw

theorem np_rawYearSpecP (i : Str) : rawYearSpecP i ≠ .panic := by
  unfold rawYearSpecP
  exact np_palt2 _ _ np_yearRangeP (np_pmap _ _ np_yearP) _

theorem rawYearSpecP_done (i r : Str) (be : YearExpr × YearExpr)
    (h : rawYearSpecP i = .done r be) : ValidYE be.1 ∧ ValidYE be.2 := by
  unfold rawYearSpecP at h
  rcases palt2_done _ _ _ _ _ h with h1 | h1
  · exact yearRangeP_done _ _ _ h1
  · obtain ⟨w, hw, hv⟩ := pmap_done _ _ _ _ _ h1
    have := yearP_done _ _ _ hw
    rw [hv]
    exact ⟨this, this⟩

/-- The key safety fact: every range that `try_to_four_digit_range` accepts
from parser-produced year tokens is proper (`begin ≤ end`), so
`YearRange::new`'s assertion never fires. -/
theorem tryRange_proper (opts : YearRangeNormalization) (b e : YearExpr)
    (hb : ValidYE b) (he : ValidYE e) (b4 e4 : Nat)
    (h : tryToFourDigitRange opts (b, e) = some (b4, e4)) : b4 ≤ e4 := by
  cases b with
  | twoDigit bv =>
      simp only [ValidYE] at hb
      cases e with
      | twoDigit ev =>
          simp only [ValidYE] at he
          simp only [tryToFourDigitRange] at h
          unfold tryToFourDigitRange22 at h
          by_cases hle : bv ≤ ev
          · rw [if_pos hle] at h
            cases hg : opts.allowCenturyGuess <;> rw [hg] at h
            · cases h
            · simp only [if_pos rfl] at h
              cases h
              unfold composeYear getCentury guessFourDigitFromTwoDigit
                composeYear guessCentury
              by_cases h60 : bv < 60 <;> simp [h60] <;> omega
          · rw [if_neg hle] at h
            cases hy : opts.allowAssumingY2kSpan <;> rw [hy] at h
            · cases h
            · simp only [if_pos rfl] at h
              cases h
              unfold composeYear
              omega
      | fourDigit ev =>
          simp only [ValidYE] at he
          simp only [tryToFourDigitRange] at h
          unfold tryToFourDigitRange24 at h
          by_cases hle : bv ≤ getTwoDigitYear ev
          · rw [if_pos hle] at h
            cases h
            unfold getTwoDigitYear at hle
            unfold composeYear getCentury
            omega
          · rw [if_neg hle] at h
            cases hr : opts.allowMixedSizeImpliedCenturyRollover <;> rw [hr] at h
            · cases h
            · simp only [if_pos rfl] at h
              cases h
              unfold composeYear getCentury
              omega
  | fourDigit bv =>
      simp only [ValidYE] at hb
      cases e with
      | twoDigit ev =>
          simp only [ValidYE] at he
          simp only [tryToFourDigitRange] at h
          unfold tryToFourDigitRange42 at h
          by_cases hle : getTwoDigitYear bv ≤ ev
          · rw [if_pos hle] at h
            cases h
            unfold getTwoDigitYear at hle
            unfold composeYear getCentury
            omega
          · rw [if_neg hle] at h
            cases hr : opts.allowMixedSizeImpliedCenturyRollover <;> rw [hr] at h
            · cases h
            · simp only [if_pos rfl] at h
              cases h
              unfold composeYear getCentury
              omega
      | fourDigit ev =>
          simp only [tryToFourDigitRange] at h
          unfold tryToFourDigitRange44 at h
          by_cases hle : bv ≤ ev
          · rw [if_pos hle] at h
            cases h
            exact hle
          · rw [if_neg hle] at h
            cases h

theorem np_yearSpecP (opts : YearRangeNormalization) (i : Str) :
    yearSpecP opts i ≠ .panic := by
  intro h
  unfold yearSpecP at h
  split at h
  next rr b e hr =>
    obtain ⟨hb, he⟩ := rawYearSpecP_done _ _ _ hr
    by_cases hbe : (b == e) = true
    · rw [if_pos hbe] at h
      cases h
    · rw [if_neg hbe] at h
      cases ht : tryToFourDigitRange opts (b, e) with
      | none =>
          rw [ht] at h
          dsimp only at h
          cases h
      | some p =>
          obtain ⟨b4, e4⟩ := p
          rw [ht] at h
          dsimp only at h
          rw [if_pos (tryRange_proper opts b e hb he b4 e4 ht)] at h
          cases h
  · cases h
  next hr => exact np_rawYearSpecP _ hr

theorem np_space1P (i : Str) : space1P i ≠ .panic := by
  intro h
  unfold space1P at h
  split at h
  next c rest => split at h <;> cases h
  · cases h

theorem np_commaSepP (i : Str) : commaSepP i ≠ .panic := by
  intro h
  unfold commaSepP at h
  split at h
  · cases h
  · cases h
  next ht => exact np_ptag _ _ ht

theorem np_listSepP (i : Str) : listSepP i ≠ .panic :=
  np_palt2 _ _ np_commaSepP np_space1P i

theorem np_sepList1Go {α : Type} (sep : PFun Unit) (p : PFun α)
    (hsep : ∀ i, sep i ≠ .panic) (hp : ∀ i, p i ≠ .panic) :
    ∀ fuel i acc, sepList1Go sep p fuel i acc ≠ .panic := by
  intro fuel
  induction fuel with
  | zero => intro i acc h; cases h
  | succ n ih =>
      intro i acc h
      unfold sepList1Go at h
      split at h
      · exact hsep i ‹sep i = PRes.panic›
      · cases h
      · split at h
        · cases h
        · split at h
          · exact hp _ ‹_›
          · cases h
          next r2 v heq => exact ih _ _ h

theorem np_sepList1 {α : Type} (sep : PFun Unit) (p : PFun α)
    (hsep : ∀ i, sep i ≠ .panic) (hp : ∀ i, p i ≠ .panic) :
    ∀ i, sepList1 sep p i ≠ .panic := by
  intro i h
  unfold sepList1 at h
  split at h
  · exact hp i ‹p i = PRes.panic›
  · cases h
  · exact np_sepList1Go sep p hsep hp _ _ _ h

theorem np_yearSpecVecP (opts : YearRangeNormalization) (i : Str) :
    yearSpecVecP opts i ≠ .panic :=
  np_sepList1 _ _ np_listSepP (np_yearSpecP opts) i

theorem np_copyrightPfxP (i : Str) : copyrightPfxP i ≠ .panic := by
  intro h
  unfold copyrightPfxP at h
  split at h
  · cases h
  · cases h
  next heq =>
    exact np_palt2 _ _ (np_ptagNoCase _)
      (np_palt2 _ _ (np_ptagNoCase _) (np_ptagNoCase _)) _ heq

theorem np_notLineEndingP (i : Str) : notLineEndingP i ≠ .panic := by
  intro h
  unfold notLineEndingP at h
  split at h
  all_goals
    first
      | cases h
      | (split at h <;> cases h)

theorem np_copyrightLineP (opts : YearRangeNormalization) (i : Str) :
    copyrightLineP opts i ≠ .panic := by
  intro h
  unfold copyrightLineP at h
  split at h
  · split at h
    · split at h
      · split at h
        · cases h
        · cases h
        next heq => exact np_notLineEndingP _ heq
      · cases h
      next heq => exact np_commaSepP _ heq
    · cases h
    next heq => exact np_yearSpecVecP opts _ heq
  · cases h
  next heq => exact np_copyrightPfxP _ heq

theorem np_lineTermP (opts : YearRangeNormalization) (i : Str) :
    lineTermP opts i ≠ .panic := by
  intro h
  unfold lineTermP at h
  split at h
  · cases h
  · cases h
  next heq => exact np_copyrightLineP opts _ heq

theorem np_lineEofP (opts : YearRangeNormalization) (i : Str) :
    lineEofP opts i ≠ .panic := by
  intro h
  unfold lineEofP at h
  split at h
  · split at h <;> cases h
  · cases h
  next heq => exact np_copyrightLineP opts _ heq

theorem np_many1Go {α : Type} (p : PFun α) (hp : ∀ i, p i ≠ .panic) :
    ∀ fuel i acc, many1Go p fuel i acc ≠ .panic := by
  intro fuel
  induction fuel with
  | zero => intro i acc h; cases h
  | succ n ih =>
      intro i acc h
      unfold many1Go at h
      split at h
      · exact hp i ‹p i = PRes.panic›
      · cases h
      · split at h
        · cases h
        · exact ih _ _ h

theorem np_many1 {α : Type} (p : PFun α) (hp : ∀ i, p i ≠ .panic) :
    ∀ i, many1 p i ≠ .panic := by
  intro i h
  unfold many1 at h
  split at h
  · exact hp i ‹p i = PRes.panic›
  · cases h
  · exact np_many1Go p hp _ _ _ h

theorem np_copyrightLinesP (opts : YearRangeNormalization) (i : Str) :
    copyrightLinesP opts i ≠ .panic := by
  refine np_palt2 _ _ (np_pmap _ _ (np_many1 _ (np_lineTermP opts)))
    (np_palt2 _ _ (np_pmap _ _ (np_lineEofP opts)) ?_) i
  intro j h
  cases h

/-- Totality of `copyright_lines`: the opaque fallback consumes anything,
and no earlier alternative can panic, so the parser always succeeds. -/
theorem copyrightLinesP_total (opts : YearRangeNormalization) (i : Str) :
    ∃ r c, copyrightLinesP opts i = .done r c := by
  unfold copyrightLinesP
  cases h1 : pmap linesToCopyright (many1 (lineTermP opts)) i with
  | panic => exact absurd h1 (np_pmap _ _ (np_many1 _ (np_lineTermP opts)) i)
  | done r c => exact ⟨r, c, by simp [palt2, h1]⟩
  | fail =>
      cases h2 : pmap Copyright.decomposable (lineEofP opts) i with
      | panic => exact absurd h2 (np_pmap _ _ (np_lineEofP opts) i)
      | done r c => exact ⟨r, c, by simp [palt2, h1, h2]⟩
      | fail =>
          refine ⟨[], Copyright.complex (trimStr (i.dropWhile isWsp)), ?_⟩
          simp [palt2, h1, h2, complexP]

/-! ## Claim C2 -/

/-- **C2** evaluated at the failing input `"2024, A\nxyz"`: the first
alternative of `copyright_lines` (`many1` without an end-of-input
requirement) parses the first line and stops, leaving `"xyz"` unconsumed;
`try_parse` then discards the leftover and returns the `Decomposable`
statement — not the `Complex` fallback the claim requires for input that
does not fully match the grammar (and contradicting `copyright_lines`' own
doc comment "This will consume all remaining input"). -/
theorem c2_partial_match_not_complex :
    copyrightLinesP defaultNorm "2024, A\nxyz".data =
      PRes.done "xyz".data
        (Copyright.decomposable ⟨[YearSpec.singleYear 2024], "A".data⟩) ∧
    tryParse defaultNorm "2024, A\nxyz".data =
      PRes.done []
        (Copyright.decomposable ⟨[YearSpec.singleYear 2024], "A".data⟩) ∧
    decide (Copyright.decomposable ⟨[YearSpec.singleYear 2024], "A".data⟩ =
      Copyright.complex (trimStr "2024, A\nxyz".data)) = false := by
  refine ⟨by decide, by decide, by decide⟩

/-! ## Claim C3 -/

/-- **C3**: a four-digit/four-digit year range with `begin > end` is
improper: normalization rejects it (`none`), so the copyright line fails as
an ordinary grammar failure and falls through to the later alternatives
(concretely, to the opaque fallback); and no input string whatsoever can
make the parser panic — every assertion on the parsing path is satisfied. -/
theorem c3_improper_range_is_grammar_failure (opts : YearRangeNormalization) :
    (∀ b e : Nat, 99 < b → 99 < e → e < b →
      tryToFourDigitRange opts (.fourDigit b, .fourDigit e) = none) ∧
    (∀ s : Str, copyrightLinesP opts s ≠ .panic) ∧
    copyrightLinesP defaultNorm "Copyright 2022-1995, X".data =
      .done [] (Copyright.complex "Copyright 2022-1995, X".data) := by
  refine ⟨?_, np_copyrightLinesP opts, by decide⟩
  intro b e _ _ hlt
  simp only [tryToFourDigitRange]
  unfold tryToFourDigitRange44
  rw [if_neg (by omega)]

/-- **C3, witness**: the improper range `2022-1995` is rejected by
normalization under any options. -/
theorem c3_witness :
    99 < 2022 ∧ 99 < 1995 ∧ 1995 < 2022 ∧
    tryToFourDigitRange defaultNorm (.fourDigit 2022, .fourDigit 1995) = none :=
  ⟨by decide, by decide, by decide,
    (c3_improper_range_is_grammar_failure defaultNorm).1 2022 1995
      (by decide) (by decide) (by decide)⟩

end SpdxToDep5
